import Mathlib

/-!
Verification development for the congen 1.7 constituent-generator core
(src/lib/congen-1.7/utf8-src/libcongen.cc).

The C++ source is shallowly embedded as follows:

* machine integers (int64_t `Congen::time_t`, `year_t`, loop counters)
  become `ℤ` / `ℕ`;
* `double` values become exact rationals `ℚ` where the computation is
  rational (times, Table 1 polynomials, speeds) and real numbers `ℝ`
  where it is transcendental (trigonometry, node factors);
* numeric literals parsed from the catalog text are kept as exact
  decimals (`Dec`, a mantissa/exponent pair) so that parsing results are
  decidable data;
* `std::istringstream` extraction with its good/fail/eof flag discipline
  is modelled by `ISS` below; `assert` failures become `Option`/`Except`
  failures or are noted where they cannot fire.

The header file `Congen` of congen 1.7 (declaring `Constituent`,
`Satellite` and the `*_index` constants) is not part of the sources
under verification; everything taken from it is modelled from the
specification text and marked `Modelled from the spec` at its
declaration.
-/

set_option maxRecDepth 4000

namespace Congen

/-! ### Character-level scanning

`operator>>` on an `istringstream` skips whitespace and then consumes a
maximal token permitted by the target type.  `ScanRes` records the three
possible outcomes: a value together with the remaining characters,
failure after consuming to the end of the input (which in C++ raises
`eofbit` together with `failbit`), or failure at an offending character
(`failbit` only).  The numeric grammars below follow the `num_get`
behavior of the C++ standard library for decimal input; hexadecimal
floats and `inf`/`nan` spellings are not modelled. -/

/-- Whitespace characters recognised by `isspace` in the C locale. -/
def isWSChar (c : Char) : Bool :=
  c = ' ' || c = '\t' || c = '\n' || c = '\r' || c = Char.ofNat 11 || c = Char.ofNat 12

/-- Result of a single extraction attempt on a character list. -/
inductive ScanRes (α : Type) : Type where
  | ok (v : α) (rest : List Char)
  | failEnd
  | failMid
deriving DecidableEq

/-- Numeric value of a digit run (most significant first). -/
def natOfDigits (ds : List Char) : ℕ :=
  ds.foldl (fun a c => a * 10 + (c.toNat - 48)) 0

/-- Consume an optional leading sign; `true` means negative. -/
def scanSign : List Char → Bool × List Char
  | '-' :: r => (true, r)
  | '+' :: r => (false, r)
  | r => (false, r)

/-- `iss >> std::string`: skip whitespace, take a maximal non-whitespace
run.  String extraction can only fail by exhausting the input. -/
def scanTok (cs : List Char) : ScanRes (List Char) :=
  match cs.dropWhile isWSChar with
  | [] => .failEnd
  | c :: r =>
    .ok ((c :: r).takeWhile (fun d => !isWSChar d)) ((c :: r).dropWhile (fun d => !isWSChar d))

/-- `iss >> int`: optional sign followed by at least one digit. -/
def scanInt (cs : List Char) : ScanRes ℤ :=
  match cs.dropWhile isWSChar with
  | [] => .failEnd
  | c :: r0 =>
    let (neg, r1) := scanSign (c :: r0)
    let ds := r1.takeWhile Char.isDigit
    let r2 := r1.dropWhile Char.isDigit
    if ds.isEmpty then (if r1.isEmpty then .failEnd else .failMid)
    else .ok (if neg then -(natOfDigits ds : ℤ) else (natOfDigits ds : ℤ)) r2

/-- `iss >> unsigned`: as `scanInt`; a negative number wraps modulo 2³².
(The C++ library's overflow handling for counts beyond 2³² is not
modelled; no catalog uses such values.) -/
def scanUInt (cs : List Char) : ScanRes ℕ :=
  match cs.dropWhile isWSChar with
  | [] => .failEnd
  | c :: r0 =>
    let (neg, r1) := scanSign (c :: r0)
    let ds := r1.takeWhile Char.isDigit
    let r2 := r1.dropWhile Char.isDigit
    if ds.isEmpty then (if r1.isEmpty then .failEnd else .failMid)
    else .ok (if neg then (2 ^ 32 - natOfDigits ds % 2 ^ 32) % 2 ^ 32 else natOfDigits ds) r2

/-- Exact decimal number: the value is `m · 10^e`.  This represents a
parsed `double` literal exactly (the C++ code never needs more than the
decimal value written in the catalog). -/
structure Dec where
  m : ℤ
  e : ℤ
deriving DecidableEq

/-- Rational value of an exact decimal. -/
def Dec.toRat (d : Dec) : ℚ := (d.m : ℚ) * 10 ^ d.e

/-- `iss >> double`: optional sign, digits with an optional fractional
part (at least one mantissa digit), optional exponent. -/
def scanDouble (cs : List Char) : ScanRes Dec :=
  match cs.dropWhile isWSChar with
  | [] => .failEnd
  | c :: r0 =>
    let (neg, r1) := scanSign (c :: r0)
    let ids := r1.takeWhile Char.isDigit
    let r2 := r1.dropWhile Char.isDigit
    let fp : List Char × List Char :=
      match r2 with
      | '.' :: rr => (rr.takeWhile Char.isDigit, rr.dropWhile Char.isDigit)
      | _ => ([], r2)
    let fds := fp.1
    let r3 := fp.2
    if ids.isEmpty && fds.isEmpty then (if r3.isEmpty then .failEnd else .failMid)
    else
      let mant : ℤ := if neg then -(natOfDigits (ids ++ fds) : ℤ) else (natOfDigits (ids ++ fds) : ℤ)
      match r3 with
      | 'e' :: rr =>
        let (eneg, r4) := scanSign rr
        let eds := r4.takeWhile Char.isDigit
        let r5 := r4.dropWhile Char.isDigit
        if eds.isEmpty then (if r5.isEmpty then .failEnd else .failMid)
        else .ok ⟨mant, (if eneg then -(natOfDigits eds : ℤ) else (natOfDigits eds : ℤ)) - fds.length⟩ r5
      | 'E' :: rr =>
        let (eneg, r4) := scanSign rr
        let eds := r4.takeWhile Char.isDigit
        let r5 := r4.dropWhile Char.isDigit
        if eds.isEmpty then (if r5.isEmpty then .failEnd else .failMid)
        else .ok ⟨mant, (if eneg then -(natOfDigits eds : ℤ) else (natOfDigits eds : ℤ)) - fds.length⟩ r5
      | _ => .ok ⟨mant, -(fds.length : ℤ)⟩ r3

/-! ### The `istringstream` state model

`ISS.rest` is the unread part of the current line; `eofb` and `failb`
are the stream's `eofbit` and `failbit`.  `badbit` never arises on a
string stream and is not modelled.  An extraction on a stream whose
`eofbit` or `failbit` is set fails immediately (the sentry object), as
in C++. -/

structure ISS where
  rest : List Char
  eofb : Bool
  failb : Bool
deriving DecidableEq

/-- Fresh stream over one line, as produced by `istringstream iss (buf)`
or by `iss.clear (); iss.str (buf)`. -/
def ISS.ofLine (s : String) : ISS := ⟨s.toList, false, false⟩

/-- `iss.good ()` (no `badbit` in this model). -/
def ISS.good (s : ISS) : Bool := !s.eofb && !s.failb

/-- Run one extraction: the sentry fails on `eofbit`/`failbit`; a
successful extraction that consumed the last character raises `eofbit`;
a failed one raises `failbit` (plus `eofbit` when input was exhausted). -/
def ISS.run {α : Type} (dflt : α) (scan : List Char → ScanRes α) (s : ISS) : α × ISS :=
  if s.eofb || s.failb then (dflt, { s with failb := true })
  else
    match scan s.rest with
    | .ok v r => (v, ⟨r, r.isEmpty, false⟩)
    | .failEnd => (dflt, ⟨[], true, true⟩)
    | .failMid => (dflt, { s with failb := true })

/-- `iss >> aString`. -/
def ISS.readStr (s : ISS) : List Char × ISS := ISS.run [] scanTok s

/-- `iss >> anInt`. -/
def ISS.readInt (s : ISS) : ℤ × ISS := ISS.run 0 scanInt s

/-- `iss >> anUnsigned`. -/
def ISS.readUInt (s : ISS) : ℕ × ISS := ISS.run 0 scanUInt s

/-- `iss >> aDouble`. -/
def ISS.readDouble (s : ISS) : Dec × ISS := ISS.run ⟨0, 0⟩ scanDouble s

/-! ### Parsed catalog records

`Satellite` is the struct from the congen header (not under `src/`);
modelled from the spec: fields Δp, ΔN, Δp₁ (small integers), α (phase,
degrees after the ×360 scaling at parse time) and r (amplitude ratio).
`Record` is the parsing result of one catalog record, before any
`Constituent` is constructed from it. -/

structure Satellite where
  Δp : ℤ
  ΔN : ℤ
  Δp₁ : ℤ
  α : Dec
  r : Dec
deriving DecidableEq

inductive Record where
  | basic (name : List Char) (V : List Dec) (u : List Dec) (f_formula : ℕ)
  | doodson (name : List Char) (V : List Dec) (satellites : List Satellite)
  | compound (name : List Char) (coefficients : List Dec)
deriving DecidableEq

/-- The `for` loops in `parseLegacyInput` that read `n` doubles and
check `!iss.good ()` after every read (used for the V and u coefficient
fields of Basic and Doodson records). -/
def readDoublesChecked (s : ISS) : ℕ → Option (List Dec × ISS)
  | 0 => some ([], s)
  | n + 1 =>
    let p := s.readDouble
    if p.2.good then (readDoublesChecked p.2 n).map (fun q => (p.1 :: q.1, q.2))
    else none

/-- Basic record tail: six V coefficients and six u coefficients (each
read checked with `!iss.good ()`), then the f-formula tag checked only
with `iss.fail ()`.  The seventh u coefficient (at `Qᵤ_index`) is not in
the input and stays 0. -/
def readBasicTail (s : ISS) : Option (List Dec × List Dec × ℕ) :=
  (readDoublesChecked s 6).bind fun q1 =>
  (readDoublesChecked q1.2 6).bind fun q2 =>
  let p := q2.2.readUInt
  if p.2.failb then none else some (q1.1, q2.1, p.1)

/-- Doodson record head: six V coefficients (checked with
`!iss.good ()`) then the satellite count checked with `iss.fail ()`. -/
def readDoodsonHead (s : ISS) : Option (List Dec × ℕ × ISS) :=
  (readDoublesChecked s 6).bind fun q1 =>
  let p := q1.2.readUInt
  if p.2.failb then none else some (q1.1, p.1, p.2)

/-- `temprs >> satellite.r` on the retained r-token text. -/
def ratTok (t : List Char) : Option Dec :=
  match scanDouble t with
  | .ok v _ => some v
  | _ => none

/-- Fields 2–5 of one satellite block (ΔN, Δp₁, α, r-token), with the
`!iss.good ()` checks after ΔN, Δp₁ and α, the `iss.fail ()` check after
the r-token, and the `temprs >> satellite.r` reparse of the token.  Any
failure is `return lineno` in the C++ (`none` here). -/
def readSatTail (s1 : ISS) : Option ((ℤ × ℤ × Dec × List Char × Dec) × ISS) :=
  let p2 := s1.readInt
  if !p2.2.good then none
  else
    let p3 := p2.2.readInt
    if !p3.2.good then none
    else
      let p4 := p3.2.readDouble
      if !p4.2.good then none
      else
        let p5 := p4.2.readStr
        if p5.2.failb then none
        else
          match ratTok p5.1 with
          | none => none
          | some rv => some ((p2.1, p3.1, p4.1, p5.1, rv), p5.2)

/-- The stored satellite: ΔN negated and α scaled by 360; a block whose
r-token contains `R` is dropped. -/
def storeSat (acc : List Satellite) (dp : ℤ) (b : (ℤ × ℤ × Dec × List Char × Dec)) :
    List Satellite :=
  if b.2.2.2.1.contains 'R' then acc
  else acc ++ [⟨dp, -b.1, b.2.1, ⟨b.2.2.1.m * 360, b.2.2.1.e⟩, b.2.2.2.2⟩]

/-- Result of one in-line pass of the satellite loop. -/
inductive SatIterRes : Type where
  | done (sats : List Satellite) (s : ISS)
  | more (need : ℕ) (sats : List Satellite)
  | err
deriving DecidableEq

/-- The satellite loop of `parseLegacyInput` restricted to the current
stream: blocks of five fields are consumed until the declared count is
satisfied (`done`), the current line is exhausted so that `getline`
must supply a fresh one (`more` — the C++ `continue` after a Δp read
that failed at end of input, or the `iss.eof ()` test at the top of the
loop), or a field is malformed (`err`, which is `return lineno`).  A
block whose r-token contains `R` is counted but not stored; otherwise
ΔN is negated and α is scaled by 360 before storage (`storeSat`). -/
def satLoopIter (s : ISS) : ℕ → List Satellite → SatIterRes
  | 0, acc => .done acc s
  | need + 1, acc =>
    if s.eofb then .more (need + 1) acc
    else
      let p1 := s.readInt
      if p1.2.failb then
        (if p1.2.eofb then .more (need + 1) acc else .err)
      else
        match readSatTail p1.2 with
        | none => .err
        | some (b, s5) => satLoopIter s5 need (storeSat acc p1.1 b)

/-- Parser state between lines: at a record boundary, or inside the
satellite list of a Doodson record that wraps onto further lines. -/
inductive Cont : Type where
  | top
  | dood (name : List Char) (V : List Dec) (need : ℕ) (sats : List Satellite)
deriving DecidableEq

/-- Compound coefficient loop: up to 13 doubles; the first failing read
zeroes its slot and stops, leaving the remaining coefficients 0. -/
def readCompoundAux (s : ISS) : ℕ → List Dec
  | 0 => []
  | n + 1 =>
    let p := s.readDouble
    if p.2.failb then List.replicate (n + 1) ⟨0, 0⟩
    else p.1 :: readCompoundAux p.2 n

def readCompound (s : ISS) : List Dec := readCompoundAux s 13

/-- The main loop of `parseLegacyInput`.  `nextNo` is the 1-based
number of the first line of `lines`; `acc` is the list of records
pushed so far.  Each step consumes exactly one input line; the
`getline` refills of the Doodson satellite loop are the `Cont.dood`
state.  A Basic record with an out-of-range f-tag is recorded as
parsed — in the C++ the subsequent constructor call aborts on the
node-factor dispatch assertion, which is modelled separately
(`Record.toConstituent` returns `none` there). -/
def parseGo : List String → ℕ → List Record → Cont → ℕ × List Record
  | [], _, acc, .top => (0, acc)
  | [], nextNo, acc, .dood _ _ _ _ => (nextNo, acc)
  | line :: ls, nextNo, acc, .dood nm V need sats =>
    match satLoopIter (ISS.ofLine line) need sats with
    | .err => (nextNo, acc)
    | .done sats2 _ => parseGo ls (nextNo + 1) (acc ++ [.doodson nm V sats2]) .top
    | .more need2 sats2 => parseGo ls (nextNo + 1) acc (.dood nm V need2 sats2)
  | line :: ls, nextNo, acc, .top =>
    let cs := line.toList
    if cs.isEmpty then parseGo ls (nextNo + 1) acc .top
    else if cs.head? = some '#' then parseGo ls (nextNo + 1) acc .top
    else
      let q1 := (ISS.ofLine line).readStr
      let q2 := q1.2.readStr
      if !q2.2.good then (nextNo, acc)
      else if q2.1 = "Basic".toList then
        match readBasicTail q2.2 with
        | none => (nextNo, acc)
        | some (V, u, tag) => parseGo ls (nextNo + 1) (acc ++ [.basic q1.1 V u tag]) .top
      else if q2.1 = "Doodson".toList then
        match readDoodsonHead q2.2 with
        | none => (nextNo, acc)
        | some (V, numsats, s3) =>
          match satLoopIter s3 numsats [] with
          | .err => (nextNo, acc)
          | .done sats _ => parseGo ls (nextNo + 1) (acc ++ [.doodson q1.1 V sats]) .top
          | .more need2 sats2 => parseGo ls (nextNo + 1) acc (.dood q1.1 V need2 sats2)
      else if q2.1 = "Compound".toList then
        parseGo ls (nextNo + 1) (acc ++ [.compound q1.1 (readCompound q2.2)]) .top
      else (nextNo, acc)

/-- `Congen::parseLegacyInput`, returning the C++ return value together
with the parsed records.  `good` is whether the input stream is readable
on entry (`is.good ()`); `lines` are the lines `getline` will deliver. -/
def parseLegacyInput (good : Bool) (lines : List String) : ℕ × List Record :=
  if !good then (1, []) else parseGo lines 1 [] .top

/-! ### Well-formedness of the catalog text

A declarative restatement of the input grammar of §4.6 of the spec,
written directly over the extraction primitives (the spec does not fix
its own numeric syntax, so the grammar inherits the scanners).  It is
used to state the success/failure contract of `parseLegacyInput`; the
flag discipline of the stream model is replaced by plain
`Option`-chaining.  One quirk of the implementation is kept, because
the return-value claim is settled against the code: a record line that
ends immediately after its kind keyword is malformed (the C++ checks
`!iss.good ()` after reading the keyword, and a read that consumes the
final character raises `eofbit`), even for Compound records where no
further field would be required. -/

/-- Token extraction without stream flags. -/
def cleanTok (cs : List Char) : Option (List Char × List Char) :=
  match scanTok cs with
  | .ok t r => some (t, r)
  | _ => none

/-- `n` doubles in sequence without stream flags. -/
def cleanDoubles : List Char → ℕ → Option (List Dec × List Char)
  | cs, 0 => some ([], cs)
  | cs, n + 1 =>
    match scanDouble cs with
    | .ok v r => (cleanDoubles r n).map (fun q => (v :: q.1, q.2))
    | _ => none

/-- An unsigned count without stream flags. -/
def cleanUInt (cs : List Char) : Option (ℕ × List Char) :=
  match scanUInt cs with
  | .ok v r => some (v, r)
  | _ => none

/-- One satellite block (five fields) without stream flags. -/
def cleanSatBlock (cs : List Char) : Option ((ℤ × ℤ × Dec × List Char × Dec) × List Char) :=
  match scanInt cs with
  | .ok dN cs2 =>
    match scanInt cs2 with
    | .ok dp1 cs3 =>
      match scanDouble cs3 with
      | .ok a cs4 =>
        match scanTok cs4 with
        | .ok t cs5 =>
          match ratTok t with
          | some rv => some ((dN, dp1, a, t, rv), cs5)
          | none => none
        | _ => none
      | _ => none
    | _ => none
  | _ => none

/-- Outcome of consuming satellite blocks from a single line. -/
inductive LineRes : Type where
  | done (sats : List Satellite) (rest : List Char)
  | more (need : ℕ) (sats : List Satellite)
  | bad
deriving DecidableEq

/-- Consume satellite blocks from the rest of one line until the count
is satisfied (`done`), the line is exhausted (`more`: the remaining
blocks continue on the next line) or a field is malformed (`bad`). -/
def satBlocksLine : List Char → ℕ → List Satellite → LineRes
  | cs, 0, acc => .done acc cs
  | cs, need + 1, acc =>
    match scanInt cs with
    | .failMid => .bad
    | .failEnd => .more (need + 1) acc
    | .ok dp cs1 =>
      match cleanSatBlock cs1 with
      | none => .bad
      | some (b, cs5) => satBlocksLine cs5 need (storeSat acc dp b)

/-- The satellite list of a Doodson record, declaratively: `need` blocks
of five fields, where a line boundary may fall only between blocks (a
fresh line is taken exactly when the next Δp read would exhaust the
current one).  Returns the collected satellites and the unconsumed
lines. -/
def satBlocks (cs : List Char) (lines : List String) (need : ℕ) (acc : List Satellite) :
    Option (List Satellite × List String) :=
  match satBlocksLine cs need acc with
  | .done sats _ => some (sats, lines)
  | .bad => none
  | .more need' acc' =>
    match lines with
    | [] => none
    | l :: ls => satBlocks l.toList ls need' acc'

theorem satBlocks_lines_le (cs : List Char) (lines : List String) (need : ℕ)
    (acc sats : List Satellite) (ls' : List String)
    (h : satBlocks cs lines need acc = some (sats, ls')) :
    ls'.length ≤ lines.length := by
  induction lines generalizing cs need acc sats ls' with
  | nil =>
    rw [satBlocks] at h
    split at h
    · cases h; exact le_rfl
    · exact absurd h (by simp)
    · exact absurd h (by simp)
  | cons l ls ih =>
    rw [satBlocks] at h
    split at h
    · cases h; exact le_rfl
    · exact absurd h (by simp)
    · exact (ih _ _ _ _ _ h).trans (by simp)

/-- Well-formedness of the whole catalog text, per §4.6: empty lines and
`#` lines are ignored; a record is `name kind` followed by the fields of
its kind; Basic needs 12 coefficients and a tag, Doodson needs 6
coefficients, a count and that many satellite blocks (wrapping lines at
block boundaries), Compound accepts any (possibly empty) coefficient
list.  The kind-keyword quirk noted above is the `r2.isEmpty` test. -/
def wfLines : List String → Bool
  | [] => true
  | line :: ls =>
    let cs := line.toList
    if cs.isEmpty then wfLines ls
    else if cs.head? = some '#' then wfLines ls
    else
      match cleanTok cs with
      | none => false
      | some (_, r1) =>
        match cleanTok r1 with
        | none => false
        | some (kind, r2) =>
          if r2.isEmpty then false
          else if kind = "Basic".toList then
            match cleanDoubles r2 12 with
            | none => false
            | some (_, r3) =>
              match cleanUInt r3 with
              | none => false
              | some _ => wfLines ls
          else if kind = "Doodson".toList then
            match cleanDoubles r2 6 with
            | none => false
            | some (_, r3) =>
              match cleanUInt r3 with
              | none => false
              | some (nsat, r4) =>
                match hsb : satBlocks r4 ls nsat [] with
                | none => false
                | some (_, ls') => wfLines ls'
          else if kind = "Compound".toList then wfLines ls
          else false
termination_by lines => lines.length
decreasing_by
  all_goals try ((try simp only [List.length_cons]); omega)
  all_goals
    (have hle := satBlocks_lines_le _ _ _ _ _ _ hsb
     simp only [List.length_cons]
     omega)

/-- Projection of a satellite-loop outcome onto the data the main loop
keeps (the stream after `done` is discarded there). -/
def SatIterRes.strip : SatIterRes → LineRes
  | .done sats _ => .done sats []
  | .more n a => .more n a
  | .err => .bad

/-- The matching projection on the flag-free side (the unread rest of
the line after `done` is discarded by `satBlocks`). -/
def LineRes.strip : LineRes → LineRes
  | .done sats _ => .done sats []
  | x => x

/-- The continuation of a Doodson satellite list onto fresh lines: true
iff the remaining blocks parse from the given lines and the rest of the
catalog is well-formed.  This is the state `wfLines` is in after
`satBlocksLine` ran out of line. -/
def doodRest (lines : List String) (need : ℕ) (sats : List Satellite) : Bool :=
  match lines with
  | [] => false
  | l :: ls =>
    match satBlocks l.toList ls need sats with
    | none => false
    | some r => wfLines r.2

/-! ### Time and calendar primitives -/

/-- Seconds since 1970-01-01 00:00 GMT of January 1, 00:00 GMT of year
`y`, proleptic Gregorian, uniform 86400-second days.  `year_t` is an
unsigned 16-bit type; after the `--year` all C arithmetic is on
non-negative ints, so `ℕ` division is exact.  The C++ asserts
`0 < year ≤ 4001`. -/
def startYear (y : ℕ) : ℤ :=
  -62135596800 + (y - 1 : ℕ) * 31536000
    + (((y - 1) / 4 - (y - 1) / 100 + (y - 1) / 400 : ℕ) : ℤ) * 86400

/-- Midpoint of year `y` (`int64_t` division truncates toward zero). -/
def midYear (y : ℕ) : ℤ := Int.tdiv (startYear y + startYear (y + 1)) 2

def daysPerJulianCentury_double : ℚ := 36525
def hoursPerJulianCentury_double : ℚ := 876600
def secondsPerJulianCentury_double : ℚ := 3155760000

/-- Julian centuries since the Table 1 epoch 1899-12-31 12:00 GMT. -/
def Table_1_T (t : ℤ) : ℚ := ((t : ℚ) - (-2209032000 : ℚ)) / secondsPerJulianCentury_double

/-- Elementwise sum of two coefficient vectors (`valarray` +). -/
def vadd (a b : List ℚ) : List ℚ := List.zipWith (· + ·) a b

/-- A scalar times a coefficient vector (`valarray` scaling). -/
def vscale (c : ℚ) (a : List ℚ) : List ℚ := a.map (fun x => c * x)

/-- Dot product (`(a * b).sum ()` on `valarray`s). -/
def vdot (a b : List ℚ) : ℚ := (List.zipWith (· * ·) a b).sum

/-- Modelled from the spec: the index constants of the missing congen
header.  V-term order (T, s, h, p, p₁, constant); u-term order
(ξ, ν, ν′, 2ν″, R, Q, Qᵤ); `numVterms = 6`, `numuterms = 7`. -/
def T_index : ℕ := 0
def s_index : ℕ := 1
def h_index : ℕ := 2
def p_index : ℕ := 3
def p₁_index : ℕ := 4
def c_index : ℕ := 5
def ξ_index : ℕ := 0
def ν_index : ℕ := 1
def ν'_index : ℕ := 2
def ν''2_index : ℕ := 3
def R_index : ℕ := 4
def Q_index : ℕ := 5
def Qᵤ_index : ℕ := 6

/-- SP 98 Table 1 polynomials for (T, s, h, p, p₁, constant) at time
`t`, or their first derivative per Julian century (`derivative = 1`).
Any other derivative value hits `assert (0)` in the C++; the model
returns the zero vector there (unreachable from the embedded code). -/
def V_terms (t : ℤ) (derivative : ℕ) : List ℚ :=
  let coeff0 : List ℚ :=
    [0, 270 + 26/60 + 14.72/3600, 279 + 41/60 + 48.04/3600,
     334 + 19/60 + 40.87/3600, 281 + 13/60 + 15/3600, 1]
  let coeff1 : List ℚ :=
    [daysPerJulianCentury_double * 360, 1336 * 360 + 1108411.2/3600, 129602768.13/3600,
     11 * 360 + 392515.94/3600, 6189.03/3600, 0]
  let coeff2 : List ℚ := [0, 9.09/3600, 1.089/3600, -37.24/3600, 1.63/3600, 0]
  let coeff3 : List ℚ := [0, 0.0068/3600, 0, -0.045/3600, 0.012/3600, 0]
  let t1 := Table_1_T t
  let t2 := t1 * t1
  match derivative with
  | 0 => vadd (vadd (vadd coeff0 (vscale t1 coeff1)) (vscale t2 coeff2)) (vscale (t2 * t1) coeff3)
  | 1 => vadd (vadd coeff1 (vscale (2 * t1) coeff2)) (vscale (3 * t2) coeff3)
  | _ => List.replicate 6 0

def midyear_N_index : ℕ := 0
def midyear_p_index : ℕ := 1
def midyear_p₁_index : ℕ := 2

/-- SP 98 Table 1 polynomials for (N, p, p₁) at the mid-year instant. -/
def midyear_terms (t : ℤ) (derivative : ℕ) : List ℚ :=
  let coeff0 : List ℚ :=
    [259 + 10/60 + 57.12/3600, 334 + 19/60 + 40.87/3600, 281 + 13/60 + 15/3600]
  let coeff1 : List ℚ :=
    [-(5 * 360 + 482912.63/3600), 11 * 360 + 392515.94/3600, 6189.03/3600]
  let coeff2 : List ℚ := [7.58/3600, -37.24/3600, 1.63/3600]
  let coeff3 : List ℚ := [0.008/3600, -0.045/3600, 0.012/3600]
  let t1 := Table_1_T t
  let t2 := t1 * t1
  match derivative with
  | 0 => vadd (vadd (vadd coeff0 (vscale t1 coeff1)) (vscale t2 coeff2)) (vscale (t2 * t1) coeff3)
  | 1 => vadd (vadd coeff1 (vscale (2 * t1) coeff2)) (vscale (3 * t2) coeff3)
  | _ => List.replicate 3 0

/-! ### Auxiliary angles and node-factor formulas (degrees, over ℝ)

The C++ asserts that `asin`/`acos` arguments lie in [−1, 1]; mathlib's
`Real.arcsin`/`Real.arccos` are total (clamping), so the assertion is
invisible here.  `atan2 (y, x)` is the argument of the complex number
`x + y i`. -/

noncomputable def sind (degrees : ℝ) : ℝ := Real.sin (degrees * (Real.pi / 180))

noncomputable def cosd (degrees : ℝ) : ℝ := Real.cos (degrees * (Real.pi / 180))

noncomputable def asind (x : ℝ) : ℝ := (180 / Real.pi) * Real.arcsin x

noncomputable def acosd (x : ℝ) : ℝ := (180 / Real.pi) * Real.arccos x

noncomputable def atan2d (y x : ℝ) : ℝ := (Complex.mk x y).arg * (180 / Real.pi)

noncomputable def tand (degrees : ℝ) : ℝ := Real.tan (degrees * (Real.pi / 180))

noncomputable def cotd (degrees : ℝ) : ℝ := 1 / tand degrees

/-- Obliquity of the ecliptic (SP 98 Table 1). -/
noncomputable def ω : ℝ := 23 + 27/60 + 8.26/3600

/-- Inclination of the moon's orbit to the ecliptic (SP 98 Table 1). -/
noncomputable def i : ℝ := 5 + 8/60 + 43.3546/3600

noncomputable def cos_I (N : ℝ) : ℝ := cosd ω * cosd i - sind ω * sind i * cosd N

noncomputable def sin_I (N : ℝ) : ℝ := Real.sqrt (1 - cos_I N * cos_I N)

noncomputable def sin_ν (N : ℝ) : ℝ := sind i * sind N / sin_I N

noncomputable def cos_ν (N : ℝ) : ℝ := Real.sqrt (1 - sin_ν N * sin_ν N)

noncomputable def sin_Ω (N : ℝ) : ℝ := sind ω * sind N / sin_I N

noncomputable def cos_Ω (N : ℝ) : ℝ := cosd N * cos_ν N + sind N * sin_ν N * cosd ω

noncomputable def ξ (N : ℝ) : ℝ := N - atan2d (sin_Ω N) (cos_Ω N)

noncomputable def ν (N : ℝ) : ℝ := asind (sin_ν N)

noncomputable def I (N : ℝ) : ℝ := acosd (cos_I N)

/-- SP 98 formula 224. -/
noncomputable def ν' (N : ℝ) : ℝ :=
  atan2d (sind (I N * 2) * sin_ν N) (sind (I N * 2) * cos_ν N + 0.3347)

/-- SP 98 formula 232 (the angle 2ν″). -/
noncomputable def ν''2 (N : ℝ) : ℝ :=
  atan2d (sin_I N * sin_I N * sind (ν N * 2)) (sin_I N * sin_I N * cosd (ν N * 2) + 0.0727)

/-- SP 98 formula 191. -/
noncomputable def P (p ξv : ℝ) : ℝ := p - ξv

/-- Term in the argument of M₁ (SP 98 formula 203, quadrant-resolved). -/
noncomputable def Q (Pv : ℝ) : ℝ := atan2d (0.483 * sind Pv) (cosd Pv)

/-- SP 98 formula 204. -/
noncomputable def Qᵤ (Pv Qv : ℝ) : ℝ := Pv - Qv

/-- SP 98 formula 197. -/
noncomputable def Qₐ (Pv : ℝ) : ℝ := 1 / Real.sqrt (2.31 + 1.435 * cosd (2 * Pv))

/-- SP 98 formula 214. -/
noncomputable def R (Pv Iv : ℝ) : ℝ :=
  atan2d (sind (2 * Pv)) (cotd (Iv / 2) * cotd (Iv / 2) / 6 - cosd (2 * Pv))

/-- SP 98 formula 213. -/
noncomputable def Rₐ (Pv Iv : ℝ) : ℝ :=
  1 / Real.sqrt (1 - 12 * (tand (Iv / 2) * tand (Iv / 2)) * cosd (2 * Pv)
    + 36 * (tand (Iv / 2) * tand (Iv / 2)) * (tand (Iv / 2) * tand (Iv / 2)))

noncomputable def f73 (Iv : ℝ) : ℝ := (2/3 - sind Iv * sind Iv) / 0.5021

noncomputable def f74 (Iv : ℝ) : ℝ := sind Iv * sind Iv / 0.1578

noncomputable def f75 (Iv : ℝ) : ℝ := sind Iv * (cosd (Iv / 2) * cosd (Iv / 2)) / 0.38

noncomputable def f76 (Iv : ℝ) : ℝ := sind (2 * Iv) / 0.7214

noncomputable def f77 (Iv : ℝ) : ℝ := sind Iv * (sind (Iv / 2) * sind (Iv / 2)) / 0.0164

noncomputable def f78 (Iv : ℝ) : ℝ :=
  (cosd (Iv / 2) * cosd (Iv / 2)) * (cosd (Iv / 2) * cosd (Iv / 2)) / 0.9154

noncomputable def f79 (Iv : ℝ) : ℝ := sind Iv * sind Iv / 0.1565

noncomputable def f144 (Iv : ℝ) : ℝ :=
  (1 - 10 * (sind (Iv / 2) * sind (Iv / 2))
    + 15 * ((sind (Iv / 2) * sind (Iv / 2)) * (sind (Iv / 2) * sind (Iv / 2))))
    * (cosd (Iv / 2) * cosd (Iv / 2)) / 0.5873

noncomputable def f149 (Iv : ℝ) : ℝ := cosd (Iv / 2) ^ (6 : ℕ) / 0.8758

noncomputable def f206 (Iv Pv : ℝ) : ℝ := f75 Iv / Qₐ Pv

noncomputable def f215 (Iv Pv : ℝ) : ℝ := f78 Iv / Rₐ Pv Iv

noncomputable def f227 (Iv νv : ℝ) : ℝ :=
  Real.sqrt (0.8965 * (sind (2 * Iv) * sind (2 * Iv)) + 0.6001 * sind (2 * Iv) * cosd νv + 0.1006)

noncomputable def f235 (Iv νv : ℝ) : ℝ :=
  Real.sqrt (19.0444 * ((sind Iv * sind Iv) * (sind Iv * sind Iv))
    + 2.7702 * (sind Iv * sind Iv) * cosd (2 * νv) + 0.0981)

/-- The tags with a `case` in the node-factor `switch`. -/
def acceptedTag (tag : ℕ) : Bool :=
  tag = 1 || tag = 73 || tag = 74 || tag = 75 || tag = 76 || tag = 77 || tag = 78 ||
  tag = 79 || tag = 144 || tag = 149 || tag = 206 || tag = 215 || tag = 227 || tag = 235

/-- The formula selected by a tag; the value is meaningful only for
accepted tags (the `default: assert (0)` branch returns 0 here and is
cut off by `f` below). -/
noncomputable def fImpl (tag : ℕ) (Iv Pv νv : ℝ) : ℝ :=
  if tag = 1 then 1
  else if tag = 73 then f73 Iv
  else if tag = 74 then f74 Iv
  else if tag = 75 then f75 Iv
  else if tag = 76 then f76 Iv
  else if tag = 77 then f77 Iv
  else if tag = 78 then f78 Iv
  else if tag = 79 then f79 Iv
  else if tag = 144 then f144 Iv
  else if tag = 149 then f149 Iv
  else if tag = 206 then f206 Iv Pv
  else if tag = 215 then f215 Iv Pv
  else if tag = 227 then f227 Iv νv
  else if tag = 235 then f235 Iv νv
  else 0

/-- The node-factor dispatch: a value for the fourteen tabulated tags,
`assert (0)` — modelled as `none` — on every other tag. -/
noncomputable def f (tag : ℕ) (Iv Pv νv : ℝ) : Option ℝ :=
  if acceptedTag tag then some (fImpl tag Iv Pv νv) else none

/-! ### Constituents -/

/-- The central entity; `Vpu` is the field spelled `(Vₒ+u)` in the C++.
`speed` is exactly rational (it comes from the Table 1 derivative);
the two series are year-indexed from `firstYear`. -/
structure Constituent where
  name : String
  speed : ℚ
  Vpu : List ℝ
  f : List ℝ

/-- `Constituent (numYears)` / `resize`: the zero constituent. -/
noncomputable def zeroConstituent (numYears : ℕ) : Constituent :=
  ⟨"zero", 0, List.replicate numYears 0, List.replicate numYears 1⟩

/-- `operator+=`: speeds add, V₀+u adds elementwise, node factors
multiply elementwise, the name becomes "nameless".  The C++ asserts the
series lengths match. -/
noncomputable def Constituent.add (a b : Constituent) : Constituent :=
  ⟨"nameless", a.speed + b.speed, List.zipWith (· + ·) a.Vpu b.Vpu,
    List.zipWith (· * ·) a.f b.f⟩

/-- `operator*=`: speed and V₀+u scale by `x`, the node factor is raised
to `|x|` (real exponent, as `pow (f, fabs (x))`). -/
noncomputable def Constituent.smul (x : ℚ) (a : Constituent) : Constituent :=
  ⟨"nameless", a.speed * x, a.Vpu.map (fun v => v * (x : ℝ)),
    a.f.map (fun v => v ^ ((|x| : ℚ) : ℝ))⟩

/-- The seven u-terms at the mid-year instant `t1`, in the header's
index order (spec-modelled: ξ, ν, ν′, 2ν″, R, Q, Qᵤ). -/
noncomputable def u_terms_at (t1 : ℤ) : List ℝ :=
  let mid := midyear_terms t1 0
  let N_t1 : ℝ := ((mid.getD midyear_N_index 0 : ℚ) : ℝ)
  let p_t1 : ℝ := ((mid.getD midyear_p_index 0 : ℚ) : ℝ)
  let I_t1 := I N_t1
  let ξ_t1 := ξ N_t1
  let P_t1 := P p_t1 ξ_t1
  let Q_t1 := Q P_t1
  [ξ_t1, ν N_t1, ν' N_t1, ν''2 N_t1, R P_t1 I_t1, Q_t1, Qᵤ P_t1 Q_t1]

/-- The Basic constructor body (always-succeeding part): speed from the
Table 1 derivative at the speed epoch with the M₁ special-case term
(SP 98 ¶124), then per year V₀+u and the node factor from the tag. -/
noncomputable def mkBasic (nm : String) (V_coefficients u_coefficients : List ℚ)
    (f_formula : ℕ) (firstYear lastYear epochForSpeed : ℕ) : Constituent :=
  let n := lastYear - firstYear + 1
  let speeds := V_terms (startYear epochForSpeed) 1
  { name := nm
    speed := (vdot speeds V_coefficients
        + speeds.getD p_index 0 * u_coefficients.getD Q_index 0)
        / hoursPerJulianCentury_double
    Vpu := (List.range n).map (fun k =>
      ((vdot (V_terms (startYear (firstYear + k)) 0) V_coefficients : ℚ) : ℝ)
        + (List.zipWith (· * ·) (u_terms_at (midYear (firstYear + k)))
            (u_coefficients.map (fun q => (q : ℝ)))).sum)
    f := (List.range n).map (fun k =>
      let mid := midyear_terms (midYear (firstYear + k)) 0
      let N_t1 : ℝ := ((mid.getD midyear_N_index 0 : ℚ) : ℝ)
      let p_t1 : ℝ := ((mid.getD midyear_p_index 0 : ℚ) : ℝ)
      fImpl f_formula (I N_t1) (P p_t1 (ξ N_t1)) (ν N_t1)) }

/-- The Basic constructor including the node-factor dispatch assertion:
an unaccepted tag aborts the program (`none`). -/
noncomputable def basicConstituent (nm : String) (V_coefficients u_coefficients : List ℚ)
    (f_formula : ℕ) (firstYear lastYear epochForSpeed : ℕ) : Option Constituent :=
  if acceptedTag f_formula then
    some (mkBasic nm V_coefficients u_coefficients f_formula firstYear lastYear epochForSpeed)
  else none

/-- The Doodson constructor: speed without the M₁ term; per year, V₀
plus the phase of the satellite sum (Foreman p. 26), node factor the
modulus of the satellite sum. -/
noncomputable def mkDoodson (nm : String) (V_coefficients : List ℚ)
    (satellites : List Satellite) (firstYear lastYear epochForSpeed : ℕ) : Constituent :=
  let n := lastYear - firstYear + 1
  let speeds := V_terms (startYear epochForSpeed) 1
  { name := nm
    speed := vdot speeds V_coefficients / hoursPerJulianCentury_double
    Vpu := (List.range n).map (fun k =>
      let mid := midyear_terms (midYear (firstYear + k)) 0
      let N_t1 : ℝ := ((mid.getD midyear_N_index 0 : ℚ) : ℝ)
      let p_t1 : ℝ := ((mid.getD midyear_p_index 0 : ℚ) : ℝ)
      let p₁_t1 : ℝ := ((mid.getD midyear_p₁_index 0 : ℚ) : ℝ)
      let cossum := 1 + (satellites.map (fun st =>
        (st.r.toRat : ℝ) * cosd ((st.Δp : ℝ) * p_t1 + (st.ΔN : ℝ) * N_t1
          + (st.Δp₁ : ℝ) * p₁_t1 + (st.α.toRat : ℝ)))).sum
      let sinsum := (satellites.map (fun st =>
        (st.r.toRat : ℝ) * sind ((st.Δp : ℝ) * p_t1 + (st.ΔN : ℝ) * N_t1
          + (st.Δp₁ : ℝ) * p₁_t1 + (st.α.toRat : ℝ)))).sum
      ((vdot (V_terms (startYear (firstYear + k)) 0) V_coefficients : ℚ) : ℝ)
        + atan2d sinsum cossum)
    f := (List.range n).map (fun k =>
      let mid := midyear_terms (midYear (firstYear + k)) 0
      let N_t1 : ℝ := ((mid.getD midyear_N_index 0 : ℚ) : ℝ)
      let p_t1 : ℝ := ((mid.getD midyear_p_index 0 : ℚ) : ℝ)
      let p₁_t1 : ℝ := ((mid.getD midyear_p₁_index 0 : ℚ) : ℝ)
      let cossum := 1 + (satellites.map (fun st =>
        (st.r.toRat : ℝ) * cosd ((st.Δp : ℝ) * p_t1 + (st.ΔN : ℝ) * N_t1
          + (st.Δp₁ : ℝ) * p₁_t1 + (st.α.toRat : ℝ)))).sum
      let sinsum := (satellites.map (fun st =>
        (st.r.toRat : ℝ) * sind ((st.Δp : ℝ) * p_t1 + (st.ΔN : ℝ) * N_t1
          + (st.Δp₁ : ℝ) * p₁_t1 + (st.α.toRat : ℝ)))).sum
      Real.sqrt (sinsum * sinsum + cossum * cossum)) }

/-- Modelled from the spec: the fixed order of the 13 Compound bases
(O₁, K₁, P₁, M₂, S₂, N₂, L₂, K₂, Q₁, ν₂, S₁, M₁-DUTCH, λ₂) declared in
the missing header; the coefficient tables are from the source. -/
def compoundBaseName : ℕ → String
  | 0 => "O₁" | 1 => "K₁" | 2 => "P₁" | 3 => "M₂" | 4 => "S₂" | 5 => "N₂" | 6 => "L₂"
  | 7 => "K₂" | 8 => "Q₁" | 9 => "ν₂" | 10 => "S₁" | 11 => "M₁-DUTCH" | _ => "λ₂"

def compoundBaseV : ℕ → List ℚ
  | 0 => [1, -2, 1, 0, 0, 90]
  | 1 => [1, 0, 1, 0, 0, -90]
  | 2 => [1, 0, -1, 0, 0, 90]
  | 3 => [2, -2, 2, 0, 0, 0]
  | 4 => [2, 0, 0, 0, 0, 0]
  | 5 => [2, -3, 2, 1, 0, 0]
  | 6 => [2, -1, 2, -1, 0, 180]
  | 7 => [2, 0, 2, 0, 0, 0]
  | 8 => [1, -3, 1, 1, 0, 90]
  | 9 => [2, -3, 4, -1, 0, 0]
  | 10 => [1, 0, 0, 0, 0, 0]
  | 11 => [1, -1, 1, 1, 0, -90]
  | _ => [2, -1, 0, 1, 0, 180]

def compoundBaseU : ℕ → List ℚ
  | 0 => [2, -1, 0, 0, 0, 0, 0]
  | 1 => [0, 0, -1, 0, 0, 0, 0]
  | 2 => [0, 0, 0, 0, 0, 0, 0]
  | 3 => [2, -2, 0, 0, 0, 0, 0]
  | 4 => [0, 0, 0, 0, 0, 0, 0]
  | 5 => [2, -2, 0, 0, 0, 0, 0]
  | 6 => [2, -2, 0, 0, 0, -1, 0]
  | 7 => [0, 0, 0, -1, 0, 0, 0]
  | 8 => [2, -1, 0, 0, 0, 0, 0]
  | 9 => [2, -2, 0, 0, 0, 0, 0]
  | 10 => [0, 0, 0, 0, 0, 0, 0]
  | 11 => [0, -1, 0, 0, 0, 0, -1]
  | _ => [2, -2, 0, 0, 0, 0, 0]

def compoundBaseTag : ℕ → ℕ
  | 0 => 75 | 1 => 227 | 2 => 1 | 3 => 78 | 4 => 1 | 5 => 78 | 6 => 215
  | 7 => 235 | 8 => 75 | 9 => 78 | 10 => 1 | 11 => 206 | _ => 78

/-- The cached base vector rebuilt by the Compound constructor (the
cache key plays no semantic role; the model rebuilds every time). -/
noncomputable def compoundTerms (firstYear lastYear epochForSpeed : ℕ) : List Constituent :=
  (List.range 13).map (fun k =>
    mkBasic (compoundBaseName k) (compoundBaseV k) (compoundBaseU k) (compoundBaseTag k)
      firstYear lastYear epochForSpeed)

/-- The Compound constructor: start from the zero constituent of the
right length, accumulate `coefficients[k] * terms[k]` with `+=` for each
base, then set the name. -/
noncomputable def mkCompound (nm : String) (coefficients : List ℚ)
    (firstYear lastYear epochForSpeed : ℕ) : Constituent :=
  { (List.zipWith (fun c b => Constituent.smul c b) coefficients
      (compoundTerms firstYear lastYear epochForSpeed)).foldl Constituent.add
      (zeroConstituent (lastYear - firstYear + 1)) with name := nm }

/-- Construction of the `Constituent` a parsed record pushes into the
output vector.  For a Basic record this can abort (`none`) on the
node-factor dispatch; Doodson and Compound always construct. -/
noncomputable def Record.toConstituent (firstYear lastYear epochForSpeed : ℕ) :
    Record → Option Constituent
  | .basic nm V u tag =>
    basicConstituent (String.mk nm) (V.map Dec.toRat) (u.map Dec.toRat ++ [0]) tag
      firstYear lastYear epochForSpeed
  | .doodson nm V sats =>
    some (mkDoodson (String.mk nm) (V.map Dec.toRat) sats firstYear lastYear epochForSpeed)
  | .compound nm coeffs =>
    some (mkCompound (String.mk nm) (coeffs.map Dec.toRat) firstYear lastYear epochForSpeed)

/-! ### Output formatting

`printf`-style `%f` formatting of an exact rational: scale by `10^d`,
round half to even (the behavior of `%f` documented in the C++ comment),
render with `d` forced decimals and right-justify.  `fmod` truncates
toward zero as in C99; the `fabs` fixing a negative zero after `fmod`
has no counterpart over `ℚ`. -/

/-- Truncation toward zero. -/
def truncQ (q : ℚ) : ℤ := if 0 ≤ q then ⌊q⌋ else -⌊-q⌋

/-- C99 `fmod (x, m)` for positive `m`. -/
def fmodQ (x m : ℚ) : ℚ := x - m * truncQ (x / m)

/-- Round half to even ("nearest even number" per the comment on `%f`). -/
def roundHalfEven (q : ℚ) : ℤ :=
  let fl := ⌊q⌋
  if q - fl < 1/2 then fl
  else if 1/2 < q - fl then fl + 1
  else if fl % 2 = 0 then fl else fl + 1

/-- Left-pad with a character to a width. -/
def padLeft (c : Char) (w : ℕ) (s : String) : String :=
  String.mk (List.replicate (w - s.length) c) ++ s

/-- `sprintf (temp, "%*.*f", w, d, q)`; with `spaceFlag`,
`"% *.*f"` (a blank in the sign position of non-negative values). -/
def fmtFixed (w d : ℕ) (spaceFlag : Bool) (q : ℚ) : String :=
  let n := roundHalfEven (q * 10 ^ d)
  let a := n.natAbs
  let core := toString (a / 10 ^ d) ++ (if d = 0 then "" else "." ++ padLeft '0' d (toString (a % 10 ^ d)))
  let signed := if n < 0 then "-" ++ core else (if spaceFlag then " " ++ core else core)
  padLeft ' ' w signed

/-- The value `normalize` formats: reduce mod 360 into [0, 360). -/
def normalizeReduced (degrees : ℚ) : ℚ :=
  let d1 := fmodQ degrees 360
  if d1 < 0 then d1 + 360 else d1

/-- `Congen::normalize`: reduce into [0, 360), format with width
`4 + decimals`, blank out a leading "36" (which appears exactly when a
value just below 360 rounds up to 360). -/
def normalize (degrees : ℚ) (decimals : ℕ) : String :=
  let temp := fmtFixed (4 + decimals) decimals false (normalizeReduced degrees)
  if temp.take 2 = "36" then "  " ++ temp.drop 2 else temp

/-- The value `snormalize` formats: reduce mod 360 into (−180, 180]. -/
def snormalizeReduced (degrees : ℚ) : ℚ :=
  let d1 := fmodQ degrees 360
  if d1 ≤ -180 then d1 + 360 else if 180 < d1 then d1 - 360 else d1

/-- `Congen::snormalize`: reduce into (−180, 180], format with
`"% *.*f"` and width `5 + decimals`, then replace the `-` of a leading
"-18" by a blank. -/
def snormalize (degrees : ℚ) (decimals : ℕ) : String :=
  let temp := fmtFixed (5 + decimals) decimals true (snormalizeReduced degrees)
  if temp.take 3 = "-18" then " " ++ temp.drop 1 else temp

/-! ### Helper lemmas -/

theorem fdiv_natCast (a b : ℕ) : Int.fdiv (a : ℤ) (b : ℤ) = ((a / b : ℕ) : ℤ) :=
  (Int.ofNat_fdiv a b).symm

theorem fmodQ_360_lb (x : ℚ) : -360 < fmodQ x 360 := by
  unfold fmodQ truncQ
  by_cases h : 0 ≤ x / 360
  · rw [if_pos h]
    have h1 := Int.floor_le (x / 360)
    push_cast
    nlinarith
  · rw [if_neg h]
    have h2 := Int.lt_floor_add_one (-(x / 360))
    push_cast
    nlinarith

theorem fmodQ_360_ub (x : ℚ) : fmodQ x 360 < 360 := by
  unfold fmodQ truncQ
  by_cases h : 0 ≤ x / 360
  · rw [if_pos h]
    have h2 := Int.lt_floor_add_one (x / 360)
    push_cast
    nlinarith
  · rw [if_neg h]
    have h1 := Int.floor_le (-(x / 360))
    push_cast
    nlinarith

theorem fmodQ_360_sign_nonneg (x : ℚ) (hx : 0 ≤ x) : 0 ≤ fmodQ x 360 := by
  unfold fmodQ truncQ
  rw [if_pos (by positivity)]
  have h1 := Int.floor_le (x / 360)
  have h0 : (0 : ℚ) ≤ ⌊x / 360⌋ := by
    have : (0 : ℚ) ≤ x / 360 := by positivity
    exact_mod_cast Int.floor_nonneg.mpr this
  nlinarith [Int.floor_le (x / 360)]

theorem fmodQ_360_sign_neg (x : ℚ) (hx : x < 0) : fmodQ x 360 ≤ 0 := by
  unfold fmodQ truncQ
  by_cases h : 0 ≤ x / 360
  · have hx0 : x / 360 = 0 := le_antisymm (by nlinarith) h
    rw [if_pos h, hx0]
    simp
    nlinarith
  · rw [if_neg h]
    have h1 := Int.floor_le (-(x / 360))
    push_cast
    nlinarith

theorem scanTok_nil : scanTok [] = .failEnd := rfl

theorem parseGo_nil_top (nextNo : ℕ) (acc : List Record) :
    parseGo [] nextNo acc .top = (0, acc) := rfl

theorem parseGo_cons_top (line : String) (ls : List String) (nextNo : ℕ) (acc : List Record) :
    parseGo (line :: ls) nextNo acc .top =
      (let cs := line.toList
      if cs.isEmpty then parseGo ls (nextNo + 1) acc .top
      else if cs.head? = some '#' then parseGo ls (nextNo + 1) acc .top
      else
        let q1 := (ISS.ofLine line).readStr
        let q2 := q1.2.readStr
        if !q2.2.good then (nextNo, acc)
        else if q2.1 = "Basic".toList then
          match readBasicTail q2.2 with
          | none => (nextNo, acc)
          | some (V, u, tag) => parseGo ls (nextNo + 1) (acc ++ [.basic q1.1 V u tag]) .top
        else if q2.1 = "Doodson".toList then
          match readDoodsonHead q2.2 with
          | none => (nextNo, acc)
          | some (V, numsats, s3) =>
            match satLoopIter s3 numsats [] with
            | .err => (nextNo, acc)
            | .done sats _ => parseGo ls (nextNo + 1) (acc ++ [.doodson q1.1 V sats]) .top
            | .more need2 sats2 => parseGo ls (nextNo + 1) acc (.dood q1.1 V need2 sats2)
        else if q2.1 = "Compound".toList then
          parseGo ls (nextNo + 1) (acc ++ [.compound q1.1 (readCompound q2.2)]) .top
        else (nextNo, acc)) := rfl

theorem ISS_run_ok {α : Type} (dflt : α) (scan : List Char → ScanRes α) (cs : List Char)
    (v : α) (r : List Char) (h : scan cs = .ok v r) :
    ISS.run dflt scan ⟨cs, false, false⟩ = (v, ⟨r, r.isEmpty, false⟩) := by
  simp [ISS.run, h]

theorem ISS_run_failEnd {α : Type} (dflt : α) (scan : List Char → ScanRes α) (cs : List Char)
    (h : scan cs = .failEnd) :
    ISS.run dflt scan ⟨cs, false, false⟩ = (dflt, ⟨[], true, true⟩) := by
  simp [ISS.run, h]

theorem scanDouble_ws (cs : List Char) (hws : ∀ c ∈ cs, isWSChar c = true) :
    scanDouble cs = .failEnd := by
  unfold scanDouble
  rw [List.dropWhile_eq_nil_iff.mpr (by intro c hc; exact hws c hc)]

/-! ### Claims -/

/-- Claim C3: for every year y in [1, 4001], `startYear y` equals
−62135596800 + (y−1)·31536000 + (⌊(y−1)/4⌋ − ⌊(y−1)/100⌋ + ⌊(y−1)/400⌋)·86400
in exact integer arithmetic (floor division written `Int.fdiv`); in
particular `startYear 2000 = 946684800`, `startYear 1970 = 0` and
`startYear 1 = −62135596800`. -/
theorem claim_C3 :
    (∀ y : ℕ, 1 ≤ y → y ≤ 4001 →
      startYear y = -62135596800 + ((y : ℤ) - 1) * 31536000
        + (Int.fdiv ((y : ℤ) - 1) 4 - Int.fdiv ((y : ℤ) - 1) 100
           + Int.fdiv ((y : ℤ) - 1) 400) * 86400)
    ∧ startYear 2000 = 946684800 ∧ startYear 1970 = 0 ∧ startYear 1 = -62135596800 := by
  refine ⟨?_, by decide, by decide, by decide⟩
  intro y h1 _
  have hy : ((y : ℤ) - 1) = ((y - 1 : ℕ) : ℤ) := by omega
  rw [hy, show (4 : ℤ) = ((4 : ℕ) : ℤ) from rfl, show (100 : ℤ) = ((100 : ℕ) : ℤ) from rfl,
    show (400 : ℤ) = ((400 : ℕ) : ℤ) from rfl, fdiv_natCast, fdiv_natCast, fdiv_natCast]
  unfold startYear
  have h4 : (y - 1) / 100 ≤ (y - 1) / 4 := Nat.div_le_div_left (by omega) (by omega)
  omega

theorem claim_C3_witness :
    1 ≤ 2000 ∧ 2000 ≤ 4001 ∧
      startYear 2000 = -62135596800 + ((2000 : ℤ) - 1) * 31536000
        + (Int.fdiv ((2000 : ℤ) - 1) 4 - Int.fdiv ((2000 : ℤ) - 1) 100
           + Int.fdiv ((2000 : ℤ) - 1) 400) * 86400 :=
  ⟨by decide, by decide, claim_C3.1 2000 (by decide) (by decide)⟩

/-- Claim C8 (amended): `normalize` reduces its argument mod 360 into
[0, 360) and formats with width 4+d and d decimals, blanking a leading
"36"; `normalize (359.999, 2) = "  0.00"`, `normalize (−0.004, 2) =
"  0.00"`.  `snormalize` reduces into (−180, 180] as a numeric value;
`snormalize (180.0, 2) = " 180.00"` (the space flag of `"% *.*f"` puts
a blank in the sign position, so the full seven-character field keeps a
leading blank) and `snormalize (−179.996, 2) = " 180.00"`. -/
theorem claim_C8 :
    (∀ x : ℚ, 0 ≤ normalizeReduced x ∧ normalizeReduced x < 360)
    ∧ normalize (359999/1000) 2 = "  0.00"
    ∧ normalize (-(4/1000)) 2 = "  0.00"
    ∧ (∀ x : ℚ, -180 < snormalizeReduced x ∧ snormalizeReduced x ≤ 180)
    ∧ snormalize 180 2 = " 180.00"
    ∧ snormalize (-(179996/1000)) 2 = " 180.00" := by
  refine ⟨?_, ?_, ?_, ?_, ?_, ?_⟩
  · intro x
    unfold normalizeReduced
    dsimp only
    have hlb := fmodQ_360_lb x
    have hub := fmodQ_360_ub x
    constructor
    · split <;> linarith
    · split <;> linarith
  · have h1 : normalizeReduced (359999/1000) = 359999/1000 := by
      unfold normalizeReduced fmodQ truncQ
      norm_num
    have h2 : roundHalfEven ((359999/1000 : ℚ) * 10 ^ 2) = 36000 := by
      unfold roundHalfEven
      norm_num
    unfold normalize
    rw [h1]
    unfold fmtFixed
    rw [h2]
    decide
  · have h1 : normalizeReduced (-(4/1000)) = 359996/1000 := by
      unfold normalizeReduced fmodQ truncQ
      norm_num
    have h2 : roundHalfEven ((359996/1000 : ℚ) * 10 ^ 2) = 36000 := by
      unfold roundHalfEven
      norm_num
    unfold normalize
    rw [h1]
    unfold fmtFixed
    rw [h2]
    decide
  · intro x
    unfold snormalizeReduced
    dsimp only
    have hlb := fmodQ_360_lb x
    have hub := fmodQ_360_ub x
    constructor
    · split
      · linarith
      · split <;> linarith
    · split
      · linarith
      · split <;> linarith
  · have h1 : snormalizeReduced 180 = 180 := by
      unfold snormalizeReduced fmodQ truncQ
      norm_num
    have h2 : roundHalfEven ((180 : ℚ) * 10 ^ 2) = 18000 := by
      unfold roundHalfEven
      norm_num
    unfold snormalize
    rw [h1]
    unfold fmtFixed
    rw [h2]
    decide
  · have h1 : snormalizeReduced (-(179996/1000)) = -(179996/1000) := by
      unfold snormalizeReduced fmodQ truncQ
      norm_num
    have h2 : roundHalfEven (-(179996/1000 : ℚ) * 10 ^ 2) = -18000 := by
      unfold roundHalfEven
      norm_num
    unfold snormalize
    rw [h1]
    unfold fmtFixed
    rw [h2]
    decide

/-- Claim C8 counterexample: the claimed `snormalize (180.0, 2) =
"180.00"` is false — the space flag of `"% *.*f"` makes it
`" 180.00"`. -/
theorem claim_C8_cex : snormalize 180 2 ≠ "180.00" := by
  have h1 : snormalizeReduced 180 = 180 := by
    unfold snormalizeReduced fmodQ truncQ
    norm_num
  have h2 : roundHalfEven ((180 : ℚ) * 10 ^ 2) = 18000 := by
    unfold roundHalfEven
    norm_num
  unfold snormalize
  rw [h1]
  unfold fmtFixed
  rw [h2]
  decide

/-- Claim C9: a non-comment line consisting of exactly two tokens (name
and kind) with nothing after the kind token is reported malformed — the
parser returns its line number whatever the kind keyword is — while the
same line with trailing whitespace and kind `Compound` parses as a
valid all-zero Compound record. -/
theorem claim_C9 :
    ∀ (line : String) (rest : List String) (nextNo : ℕ) (acc : List Record)
      (nm r1 : List Char),
      line.toList.isEmpty = false →
      line.toList.head? ≠ some '#' →
      scanTok line.toList = .ok nm r1 →
      (∀ kd, scanTok r1 = .ok kd [] → parseGo (line :: rest) nextNo acc .top = (nextNo, acc))
      ∧ (∀ r2, scanTok r1 = .ok "Compound".toList r2 → r2 ≠ [] →
          (∀ c ∈ r2, isWSChar c = true) →
          parseGo (line :: rest) nextNo acc .top
            = parseGo rest (nextNo + 1) (acc ++ [.compound nm (List.replicate 13 ⟨0, 0⟩)]) .top) := by
  intro line rest nextNo acc nm r1 h1 h2 h3
  constructor
  · intro kd h4
    have hr1 : r1 ≠ [] := by
      intro he
      subst he
      rw [scanTok_nil] at h4
      cases h4
    have hre : r1.isEmpty = false := by
      cases r1
      · exact absurd rfl hr1
      · rfl
    rw [parseGo_cons_top]
    simp only [h1, Bool.false_eq_true, if_false, if_neg h2]
    simp only [ISS.readStr, ISS.ofLine, ISS_run_ok _ _ _ _ _ h3]
    rw [hre]
    simp only [ISS_run_ok _ _ _ _ _ h4]
    simp [ISS.good]
  · intro r2 h4 hr2 hws
    have hr1 : r1 ≠ [] := by
      intro he
      subst he
      rw [scanTok_nil] at h4
      cases h4
    have hre : r1.isEmpty = false := by
      cases r1
      · exact absurd rfl hr1
      · rfl
    have hre2 : r2.isEmpty = false := by
      cases r2
      · exact absurd rfl hr2
      · rfl
    have hcb : ¬("Compound".toList = "Basic".toList) := by decide
    have hcd : ¬("Compound".toList = "Doodson".toList) := by decide
    have hrc : readCompound ⟨r2, false, false⟩ = List.replicate 13 ⟨0, 0⟩ := by
      have hsd : scanDouble r2 = .failEnd := scanDouble_ws r2 hws
      unfold readCompound
      rw [show (13 : ℕ) = 12 + 1 from rfl, readCompoundAux]
      simp [ISS.readDouble, ISS.run, hsd]
    rw [parseGo_cons_top]
    simp only [h1, Bool.false_eq_true, if_false, if_neg h2]
    simp only [ISS.readStr, ISS.ofLine, ISS_run_ok _ _ _ _ _ h3]
    rw [hre]
    simp only [ISS_run_ok _ _ _ _ _ h4]
    rw [hre2]
    simp only [ISS.good, if_neg hcb, if_neg hcd, if_pos rfl, hrc]
    simp

theorem claim_C9_witness :
    " M4 Compound".toList.isEmpty = false ∧
      parseGo [" M4 Compound"] 1 [] .top = (1, []) ∧
      parseGo ["M4 Compound ", "Z Compound 1"] 5 [] .top
        = parseGo ["Z Compound 1"] 6 [.compound "M4".toList (List.replicate 13 ⟨0, 0⟩)] .top := by
  refine ⟨by decide, ?_, ?_⟩
  · exact (claim_C9 " M4 Compound" [] 1 [] "M4".toList " Compound".toList (by decide)
      (by decide) (by decide)).1 "Compound".toList (by decide)
  · have h := (claim_C9 "M4 Compound " ["Z Compound 1"] 5 [] "M4".toList " Compound ".toList
      (by decide) (by decide) (by decide)).2 " ".toList (by decide) (by decide) (by decide)
    simpa using h


/-- Claim C5: in the Doodson satellite loop, a block whose r-token
contains `R` anywhere is counted toward the declared satellite count
(the remaining count drops by one) but contributes no stored satellite,
so the resulting constituent is numerically identical to the record
with that satellite omitted and the count decremented; a block without
`R` is stored with ΔN negated and α multiplied by 360. -/
theorem claim_C5 :
    (∀ (cs cs1 : List Char) (need : ℕ) (acc : List Satellite) (dp : ℤ)
       (b : ℤ × ℤ × Dec × List Char × Dec) (s5 : ISS),
      scanInt cs = .ok dp cs1 →
      readSatTail ⟨cs1, cs1.isEmpty, false⟩ = some (b, s5) →
      satLoopIter ⟨cs, false, false⟩ (need + 1) acc
        = satLoopIter s5 need
            (if b.2.2.2.1.contains 'R' then acc
             else acc ++ [⟨dp, -b.1, b.2.1, ⟨b.2.2.1.m * 360, b.2.2.1.e⟩, b.2.2.2.2⟩]))
    ∧ (parseLegacyInput true ["D Doodson 1 0 0 0 0 0 2 1 2 3 0.5 1.5R 4 5 6 0.25 2.5"]).1 = 0
    ∧ (parseLegacyInput true ["D Doodson 1 0 0 0 0 0 2 1 2 3 0.5 1.5R 4 5 6 0.25 2.5"]).2
        = (parseLegacyInput true ["D Doodson 1 0 0 0 0 0 1 4 5 6 0.25 2.5"]).2
    ∧ ((parseLegacyInput true ["D Doodson 1 0 0 0 0 0 2 1 2 3 0.5 1.5R 4 5 6 0.25 2.5"]).2.map
          (Record.toConstituent 1970 2000 1900))
        = ((parseLegacyInput true ["D Doodson 1 0 0 0 0 0 1 4 5 6 0.25 2.5"]).2.map
          (Record.toConstituent 1970 2000 1900)) := by
  have hmain : ∀ (cs cs1 : List Char) (need : ℕ) (acc : List Satellite) (dp : ℤ)
      (b : ℤ × ℤ × Dec × List Char × Dec) (s5 : ISS),
      scanInt cs = .ok dp cs1 →
      readSatTail ⟨cs1, cs1.isEmpty, false⟩ = some (b, s5) →
      satLoopIter ⟨cs, false, false⟩ (need + 1) acc
        = satLoopIter s5 need
            (if b.2.2.2.1.contains 'R' then acc
             else acc ++ [⟨dp, -b.1, b.2.1, ⟨b.2.2.1.m * 360, b.2.2.1.e⟩, b.2.2.2.2⟩]) := by
    intro cs cs1 need acc dp b s5 h2 h3
    have hri : (ISS.mk cs false false).readInt = (dp, ⟨cs1, cs1.isEmpty, false⟩) := by
      simpa [ISS.readInt] using ISS_run_ok 0 scanInt cs dp cs1 h2
    rw [satLoopIter, if_neg (by simp)]
    simp only [hri, h3]
    rfl
  have hrec : (parseLegacyInput true ["D Doodson 1 0 0 0 0 0 2 1 2 3 0.5 1.5R 4 5 6 0.25 2.5"]).2
      = (parseLegacyInput true ["D Doodson 1 0 0 0 0 0 1 4 5 6 0.25 2.5"]).2 := by decide
  exact ⟨hmain, by decide, hrec, by rw [hrec]⟩

theorem claim_C5_witness :
    scanInt " 1 2 3 0.5 1.5R".toList = .ok 1 " 2 3 0.5 1.5R".toList ∧
      satLoopIter ⟨" 1 2 3 0.5 1.5R".toList, false, false⟩ 2 []
        = satLoopIter ⟨[], true, false⟩ 1 [] := by
  refine ⟨rfl, ?_⟩
  have h := claim_C5.1 " 1 2 3 0.5 1.5R".toList " 2 3 0.5 1.5R".toList 1 [] 1
    (2, 3, ⟨5, -1⟩, "1.5R".toList, ⟨15, -1⟩) ⟨[], true, false⟩ (by decide) rfl
  simpa using h


/-- Claim C7 counterexample: the claim that a Basic record with an
f-tag outside the accepted set does not reach the dispatch is false —
`parseLegacyInput` performs no range check on the tag, so the record
parses (return value 0) and the constructor's node-factor dispatch is
reached with tag 2, where it fails the assertion (`none`). -/
theorem claim_C7_cex :
    (parseLegacyInput true ["X Basic 0 0 0 0 0 0 0 0 0 0 0 0 2"]).1 = 0
    ∧ (parseLegacyInput true ["X Basic 0 0 0 0 0 0 0 0 0 0 0 0 2"]).2
        = [Record.basic "X".toList (List.replicate 6 ⟨0, 0⟩) (List.replicate 6 ⟨0, 0⟩) 2]
    ∧ acceptedTag 2 = false
    ∧ Record.toConstituent 1970 2000 1900
        (Record.basic "X".toList (List.replicate 6 ⟨0, 0⟩) (List.replicate 6 ⟨0, 0⟩) 2) = none := by
  refine ⟨by decide, by decide, by decide, ?_⟩
  simp [Record.toConstituent, basicConstituent, acceptedTag]

/-- Claim C7 (amended): the node-factor dispatch f(tag, I, P, ν)
returns a value exactly for tags in {1, 73, 74, 75, 76, 77, 78, 79,
144, 149, 206, 215, 227, 235} and fails with an Assertion for every
other tag; the parser, however, does not validate the f-tag of a Basic
record, so a record with an out-of-set tag (for example 2) parses
successfully and the tag does reach the dispatch when the constituent
is constructed, where the assertion fires. -/
theorem claim_C7 :
    (∀ (tag : ℕ) (Iv Pv νv : ℝ),
      (f tag Iv Pv νv).isSome = true
        ↔ tag ∈ [1, 73, 74, 75, 76, 77, 78, 79, 144, 149, 206, 215, 227, 235])
    ∧ (parseLegacyInput true ["X Basic 0 0 0 0 0 0 0 0 0 0 0 0 2"]).1 = 0
    ∧ Record.toConstituent 1970 2000 1900
        (Record.basic "X".toList (List.replicate 6 ⟨0, 0⟩) (List.replicate 6 ⟨0, 0⟩) 2) = none := by
  refine ⟨?_, by decide, by simp [Record.toConstituent, basicConstituent, acceptedTag]⟩
  intro tag Iv Pv νv
  unfold f acceptedTag
  split
  · rename_i h
    simp only [Option.isSome_some, true_iff]
    simp only [Bool.or_eq_true, decide_eq_true_eq] at h
    simp only [List.mem_cons, List.mem_singleton]
    tauto
  · rename_i h
    simp only [Option.isSome_none, Bool.false_eq_true, false_iff]
    simp only [Bool.or_eq_true, decide_eq_true_eq, not_or] at h
    simp only [List.mem_cons, List.mem_singleton]
    tauto


theorem mkBasic_Vpu_length (nm : String) (V u : List ℚ) (tag fy ly e : ℕ) :
    (mkBasic nm V u tag fy ly e).Vpu.length = ly - fy + 1 := by
  simp [mkBasic]

theorem mkBasic_f_length (nm : String) (V u : List ℚ) (tag fy ly e : ℕ) :
    (mkBasic nm V u tag fy ly e).f.length = ly - fy + 1 := by
  simp [mkBasic]

theorem mkDoodson_Vpu_length (nm : String) (V : List ℚ) (sats : List Satellite)
    (fy ly e : ℕ) : (mkDoodson nm V sats fy ly e).Vpu.length = ly - fy + 1 := by
  simp [mkDoodson]

theorem mkDoodson_f_length (nm : String) (V : List ℚ) (sats : List Satellite)
    (fy ly e : ℕ) : (mkDoodson nm V sats fy ly e).f.length = ly - fy + 1 := by
  simp [mkDoodson]

theorem foldl_add_Vpu_length : ∀ (L : List Constituent) (acc : Constituent) (n : ℕ),
    acc.Vpu.length = n → (∀ b ∈ L, b.Vpu.length = n) →
    (L.foldl Constituent.add acc).Vpu.length = n := by
  intro L
  induction L with
  | nil => intro acc n ha _; simpa using ha
  | cons b L ih =>
    intro acc n ha hL
    simp only [List.foldl_cons]
    exact ih _ n (by simp [Constituent.add, ha, hL b (by simp)]) (fun c hc => hL c (by simp [hc]))

theorem foldl_add_f_length : ∀ (L : List Constituent) (acc : Constituent) (n : ℕ),
    acc.f.length = n → (∀ b ∈ L, b.f.length = n) →
    (L.foldl Constituent.add acc).f.length = n := by
  intro L
  induction L with
  | nil => intro acc n ha _; simpa using ha
  | cons b L ih =>
    intro acc n ha hL
    simp only [List.foldl_cons]
    exact ih _ n (by simp [Constituent.add, ha, hL b (by simp)]) (fun c hc => hL c (by simp [hc]))

theorem mem_zipWith_smul : ∀ (cs : List ℚ) (ts : List Constituent) (b : Constituent),
    b ∈ List.zipWith (fun c t => Constituent.smul c t) cs ts →
    ∃ c t, t ∈ ts ∧ b = Constituent.smul c t := by
  intro cs
  induction cs with
  | nil => intro ts b h; simp at h
  | cons c cs ih =>
    intro ts b h
    cases ts with
    | nil => simp at h
    | cons t ts =>
      simp only [List.zipWith_cons_cons, List.mem_cons] at h
      rcases h with h | h
      · exact ⟨c, t, by simp, h⟩
      · obtain ⟨c1, t1, ht, hb⟩ := ih ts b h
        exact ⟨c1, t1, by simp [ht], hb⟩

theorem compoundTerms_Vpu_length (fy ly e : ℕ) :
    ∀ b ∈ compoundTerms fy ly e, b.Vpu.length = ly - fy + 1 := by
  intro b hb
  simp only [compoundTerms, List.mem_map] at hb
  obtain ⟨k, _, hk⟩ := hb
  rw [← hk]
  exact mkBasic_Vpu_length _ _ _ _ _ _ _

theorem compoundTerms_f_length (fy ly e : ℕ) :
    ∀ b ∈ compoundTerms fy ly e, b.f.length = ly - fy + 1 := by
  intro b hb
  simp only [compoundTerms, List.mem_map] at hb
  obtain ⟨k, _, hk⟩ := hb
  rw [← hk]
  exact mkBasic_f_length _ _ _ _ _ _ _

theorem mkCompound_Vpu_length (nm : String) (coeffs : List ℚ) (fy ly e : ℕ) :
    (mkCompound nm coeffs fy ly e).Vpu.length = ly - fy + 1 := by
  unfold mkCompound
  refine foldl_add_Vpu_length _ _ _ (by simp [zeroConstituent]) ?_
  intro b hb
  obtain ⟨c, t, ht, hb⟩ := mem_zipWith_smul _ _ _ hb
  rw [hb]
  simpa [Constituent.smul] using compoundTerms_Vpu_length fy ly e t ht

theorem mkCompound_f_length (nm : String) (coeffs : List ℚ) (fy ly e : ℕ) :
    (mkCompound nm coeffs fy ly e).f.length = ly - fy + 1 := by
  unfold mkCompound
  refine foldl_add_f_length _ _ _ (by simp [zeroConstituent]) ?_
  intro b hb
  obtain ⟨c, t, ht, hb⟩ := mem_zipWith_smul _ _ _ hb
  rw [hb]
  simpa [Constituent.smul] using compoundTerms_f_length fy ly e t ht

/-- Claim C6: every Constituent produced by the Basic, Doodson or
Compound constructor with firstYear ≤ lastYear has V₀+u and f series of
equal length lastYear − firstYear + 1 (element k of either series
belongs to year firstYear + k, so the two series share the year
axis). -/
theorem claim_C6 (nm : String) (V u coeffs : List ℚ) (tag fy ly e : ℕ)
    (sats : List Satellite) (h : fy ≤ ly) :
    (∀ c, basicConstituent nm V u tag fy ly e = some c →
      c.Vpu.length = ly - fy + 1 ∧ c.f.length = ly - fy + 1)
    ∧ ((mkDoodson nm V sats fy ly e).Vpu.length = ly - fy + 1
       ∧ (mkDoodson nm V sats fy ly e).f.length = ly - fy + 1)
    ∧ ((mkCompound nm coeffs fy ly e).Vpu.length = ly - fy + 1
       ∧ (mkCompound nm coeffs fy ly e).f.length = ly - fy + 1) := by
  refine ⟨?_, ⟨mkDoodson_Vpu_length _ _ _ _ _ _, mkDoodson_f_length _ _ _ _ _ _⟩,
    mkCompound_Vpu_length _ _ _ _ _, mkCompound_f_length _ _ _ _ _⟩
  intro c hc
  unfold basicConstituent at hc
  split at hc
  · cases hc
    exact ⟨mkBasic_Vpu_length _ _ _ _ _ _ _, mkBasic_f_length _ _ _ _ _ _ _⟩
  · cases hc

theorem claim_C6_witness :
    1970 ≤ 1971 ∧ (mkDoodson "X" [] [] 1970 1971 1900).Vpu.length = 1971 - 1970 + 1 :=
  ⟨by decide, (claim_C6 "X" [] [] [] 1 1970 1971 1900 [] (by decide)).2.1.1⟩

theorem zipWith_add_map_mul_zero : ∀ (l1 l2 : List ℝ), l1.length = l2.length →
    List.zipWith (· + ·) l1 (l2.map (fun v => v * ((0 : ℚ) : ℝ))) = l1 := by
  intro l1
  induction l1 with
  | nil => intro l2 _; simp
  | cons a l1 ih =>
    intro l2 h
    cases l2 with
    | nil => simp at h
    | cons b l2 => simp_all

theorem zipWith_mul_map_rpow_zero : ∀ (l1 l2 : List ℝ), l1.length = l2.length →
    List.zipWith (· * ·) l1 (l2.map (fun v => v ^ ((|(0 : ℚ)| : ℚ) : ℝ))) = l1 := by
  intro l1
  induction l1 with
  | nil => intro l2 _; simp
  | cons a l1 ih =>
    intro l2 h
    cases l2 with
    | nil => simp at h
    | cons b l2 => simp_all [Real.rpow_zero]

/-- Claim C10: the scalar product 0 * C has speed 0, every V₀+u element
0 and every f element 1 (f is raised to |0| = 0); consequently adding
0 * C to any A of the same series length leaves A's speed, V₀+u and f
unchanged, altering only the name (to "nameless"), which is how zero
Compound coefficients contribute nothing to the accumulation. -/
theorem claim_C10 (C A : Constituent) :
    ((Constituent.smul 0 C).speed = 0
     ∧ (∀ v ∈ (Constituent.smul 0 C).Vpu, v = 0)
     ∧ (∀ v ∈ (Constituent.smul 0 C).f, v = 1))
    ∧ (A.Vpu.length = C.Vpu.length → A.f.length = C.f.length →
       Constituent.add A (Constituent.smul 0 C) = { A with name := "nameless" }) := by
  constructor
  · refine ⟨by simp [Constituent.smul], ?_, ?_⟩
    · intro v hv
      simp only [Constituent.smul, List.mem_map] at hv
      obtain ⟨w, _, hw⟩ := hv
      simp [← hw]
    · intro v hv
      simp only [Constituent.smul, List.mem_map] at hv
      obtain ⟨w, _, hw⟩ := hv
      rw [← hw]
      simp [Real.rpow_zero]
  · intro h1 h2
    unfold Constituent.add Constituent.smul
    obtain ⟨anm, asp, avpu, af⟩ := A
    simp only [Constituent.mk.injEq]
    refine ⟨by trivial, by simp, ?_, ?_⟩
    · exact zipWith_add_map_mul_zero _ _ h1
    · exact zipWith_mul_map_rpow_zero _ _ h2

theorem claim_C10_witness :
    (zeroConstituent 1).Vpu.length = (zeroConstituent 1).Vpu.length ∧
      Constituent.add (zeroConstituent 1) (Constituent.smul 0 (zeroConstituent 1))
        = { zeroConstituent 1 with name := "nameless" } :=
  ⟨rfl, (claim_C10 (zeroConstituent 1) (zeroConstituent 1)).2 rfl rfl⟩


theorem getD_zipWith_lt (op : ℝ → ℝ → ℝ) (a b : List ℝ) (idx : ℕ) (d : ℝ)
    (ha : idx < a.length) (hb : idx < b.length) :
    (List.zipWith op a b).getD idx d = op (a.getD idx d) (b.getD idx d) := by
  rw [List.getD_eq_getElem _ _ (by rw [List.length_zipWith]; omega),
      List.getD_eq_getElem _ _ ha, List.getD_eq_getElem _ _ hb, List.getElem_zipWith]

theorem getD_map_lt (g : ℝ → ℝ) (a : List ℝ) (idx : ℕ) (d : ℝ) (ha : idx < a.length) :
    (a.map g).getD idx d = g (a.getD idx d) := by
  rw [List.getD_eq_getElem _ _ (by simpa using ha), List.getD_eq_getElem _ _ ha,
    List.getElem_map]

theorem getD_replicate_lt (v : ℝ) (n idx : ℕ) (d : ℝ) (h : idx < n) :
    (List.replicate n v).getD idx d = v := by
  rw [List.getD_eq_getElem _ _ (by simpa using h), List.getElem_replicate]

theorem foldl_smuladd_speed : ∀ (cs : List ℚ) (ts : List Constituent) (acc : Constituent),
    ((List.zipWith (fun c t => Constituent.smul c t) cs ts).foldl Constituent.add acc).speed
      = acc.speed + (List.zipWith (fun c t => c * t.speed) cs ts).sum := by
  intro cs
  induction cs with
  | nil => intro ts acc; simp
  | cons c cs ih =>
    intro ts acc
    cases ts with
    | nil => simp
    | cons t ts =>
      simp only [List.zipWith_cons_cons, List.foldl_cons, List.sum_cons]
      rw [ih]
      have hstep : (Constituent.add acc (Constituent.smul c t)).speed
          = acc.speed + c * t.speed := by
        simp [Constituent.add, Constituent.smul]
        ring
      rw [hstep]
      ring

theorem foldl_smuladd_Vpu (n idx : ℕ) (hidx : idx < n) :
    ∀ (cs : List ℚ) (ts : List Constituent) (acc : Constituent),
    acc.Vpu.length = n → (∀ t ∈ ts, t.Vpu.length = n) →
    ((List.zipWith (fun c t => Constituent.smul c t) cs ts).foldl Constituent.add acc).Vpu.getD
        idx 0
      = acc.Vpu.getD idx 0
        + (List.zipWith (fun (c : ℚ) t => (c : ℝ) * t.Vpu.getD idx 0) cs ts).sum := by
  intro cs
  induction cs with
  | nil => intro ts acc _ _; simp
  | cons c cs ih =>
    intro ts acc hacc hts
    cases ts with
    | nil => simp
    | cons t ts =>
      have ht : t.Vpu.length = n := hts t (by simp)
      simp only [List.zipWith_cons_cons, List.foldl_cons, List.sum_cons]
      rw [ih ts (Constituent.add acc (Constituent.smul c t))
        (by simp [Constituent.add, Constituent.smul, hacc, ht])
        (fun x hx => hts x (by simp [hx]))]
      have hstep : (Constituent.add acc (Constituent.smul c t)).Vpu.getD idx 0
          = acc.Vpu.getD idx 0 + (c : ℝ) * t.Vpu.getD idx 0 := by
        unfold Constituent.add Constituent.smul
        rw [getD_zipWith_lt _ _ _ _ _ (by omega) (by simp [ht]; omega),
          getD_map_lt _ _ _ _ (by omega)]
        ring
      rw [hstep]
      ring

theorem foldl_smuladd_f (n idx : ℕ) (hidx : idx < n) :
    ∀ (cs : List ℚ) (ts : List Constituent) (acc : Constituent),
    acc.f.length = n → (∀ t ∈ ts, t.f.length = n) →
    ((List.zipWith (fun c t => Constituent.smul c t) cs ts).foldl Constituent.add acc).f.getD
        idx 1
      = acc.f.getD idx 1
        * (List.zipWith (fun (c : ℚ) t => t.f.getD idx 1 ^ ((|c| : ℚ) : ℝ)) cs ts).prod := by
  intro cs
  induction cs with
  | nil => intro ts acc _ _; simp
  | cons c cs ih =>
    intro ts acc hacc hts
    cases ts with
    | nil => simp
    | cons t ts =>
      have ht : t.f.length = n := hts t (by simp)
      simp only [List.zipWith_cons_cons, List.foldl_cons, List.prod_cons]
      rw [ih ts (Constituent.add acc (Constituent.smul c t))
        (by simp [Constituent.add, Constituent.smul, hacc, ht])
        (fun x hx => hts x (by simp [hx]))]
      have hstep : (Constituent.add acc (Constituent.smul c t)).f.getD idx 1
          = acc.f.getD idx 1 * t.f.getD idx 1 ^ ((|c| : ℚ) : ℝ) := by
        unfold Constituent.add Constituent.smul
        rw [getD_zipWith_lt _ _ _ _ _ (by omega) (by simp [ht]; omega)]
        congr 1
        have hd : (t.f.map (fun v => v ^ ((|c| : ℚ) : ℝ))).getD idx 1
            = t.f.getD idx 1 ^ ((|c| : ℚ) : ℝ) := by
          exact getD_map_lt _ _ _ _ (by omega)
        exact hd
      rw [hstep]
      ring


theorem foldl_smuladd_Vpu_length (n : ℕ) :
    ∀ (cs : List ℚ) (ts : List Constituent) (acc : Constituent),
    acc.Vpu.length = n → (∀ t ∈ ts, t.Vpu.length = n) →
    ((List.zipWith (fun c t => Constituent.smul c t) cs ts).foldl Constituent.add
      acc).Vpu.length = n := by
  intro cs
  induction cs with
  | nil => intro ts acc hacc _; simpa using hacc
  | cons c cs ih =>
    intro ts acc hacc hts
    cases ts with
    | nil => simpa using hacc
    | cons t ts =>
      simp only [List.zipWith_cons_cons, List.foldl_cons]
      exact ih ts _ (by simp [Constituent.add, Constituent.smul, hacc, hts t (by simp)])
        (fun x hx => hts x (by simp [hx]))

theorem foldl_smuladd_f_length (n : ℕ) :
    ∀ (cs : List ℚ) (ts : List Constituent) (acc : Constituent),
    acc.f.length = n → (∀ t ∈ ts, t.f.length = n) →
    ((List.zipWith (fun c t => Constituent.smul c t) cs ts).foldl Constituent.add
      acc).f.length = n := by
  intro cs
  induction cs with
  | nil => intro ts acc hacc _; simpa using hacc
  | cons c cs ih =>
    intro ts acc hacc hts
    cases ts with
    | nil => simpa using hacc
    | cons t ts =>
      simp only [List.zipWith_cons_cons, List.foldl_cons]
      exact ih ts _ (by simp [Constituent.add, Constituent.smul, hacc, hts t (by simp)])
        (fun x hx => hts x (by simp [hx]))

theorem mkCompound_speed (nm : String) (cs : List ℚ) (fy ly e : ℕ) :
    (mkCompound nm cs fy ly e).speed
      = (List.zipWith (fun c t => c * t.speed) cs (compoundTerms fy ly e)).sum := by
  show ((List.zipWith (fun c t => Constituent.smul c t) cs (compoundTerms fy ly e)).foldl
      Constituent.add (zeroConstituent (ly - fy + 1))).speed = _
  rw [foldl_smuladd_speed]
  simp [zeroConstituent]


theorem mkCompound_Vpu_getD (nm : String) (cs : List ℚ) (fy ly e idx : ℕ)
    (hidx : idx < ly - fy + 1) :
    (mkCompound nm cs fy ly e).Vpu.getD idx 0
      = (List.zipWith (fun (c : ℚ) t => (c : ℝ) * t.Vpu.getD idx 0) cs
          (compoundTerms fy ly e)).sum := by
  show ((List.zipWith (fun c t => Constituent.smul c t) cs (compoundTerms fy ly e)).foldl
      Constituent.add (zeroConstituent (ly - fy + 1))).Vpu.getD idx 0 = _
  rw [foldl_smuladd_Vpu (ly - fy + 1) idx hidx cs _ _ (by simp [zeroConstituent])
    (compoundTerms_Vpu_length fy ly e)]
  have h0 : (zeroConstituent (ly - fy + 1)).Vpu.getD idx 0 = 0 :=
    getD_replicate_lt _ _ _ _ hidx
  rw [h0, zero_add]

theorem mkCompound_f_getD (nm : String) (cs : List ℚ) (fy ly e idx : ℕ)
    (hidx : idx < ly - fy + 1) :
    (mkCompound nm cs fy ly e).f.getD idx 1
      = (List.zipWith (fun (c : ℚ) t => t.f.getD idx 1 ^ ((|c| : ℚ) : ℝ)) cs
          (compoundTerms fy ly e)).prod := by
  show ((List.zipWith (fun c t => Constituent.smul c t) cs (compoundTerms fy ly e)).foldl
      Constituent.add (zeroConstituent (ly - fy + 1))).f.getD idx 1 = _
  rw [foldl_smuladd_f (ly - fy + 1) idx hidx cs _ _ (by simp [zeroConstituent])
    (compoundTerms_f_length fy ly e)]
  have h1 : (zeroConstituent (ly - fy + 1)).f.getD idx 1 = 1 :=
    getD_replicate_lt _ _ _ _ hidx
  rw [h1, one_mul]

theorem range_thirteen :
    List.range 13 = [0, 1, 2, 3, 4, 5, 6, 7, 8, 9, 10, 11, 12] := by
  decide

/-- C2: a Compound constituent is the coefficient-weighted algebra over the
13 cached base constituents: its speed is the sum of coefficient times base
speed, each V₀+u entry is the sum of coefficient times base V₀+u entry, and
each node factor is the product of base node factors raised to the absolute
coefficients.  In particular the K₁+O₁ compound (coefficients 1 at the O₁
and K₁ positions, 0 elsewhere) has speed K₁.speed + O₁.speed, V₀+u the
elementwise sum of the K₁ and O₁ series and f the elementwise product of
their node-factor series. -/
theorem claim_C2 (firstYear lastYear epochForSpeed : ℕ) (nm : String) (cs : List ℚ) :
    ((mkCompound nm cs firstYear lastYear epochForSpeed).speed
        = (List.zipWith (fun c t => c * t.speed) cs
            (compoundTerms firstYear lastYear epochForSpeed)).sum
      ∧ (mkCompound nm cs firstYear lastYear epochForSpeed).Vpu
        = (List.range (lastYear - firstYear + 1)).map (fun idx =>
            (List.zipWith (fun (c : ℚ) t => (c : ℝ) * t.Vpu.getD idx 0) cs
              (compoundTerms firstYear lastYear epochForSpeed)).sum)
      ∧ (mkCompound nm cs firstYear lastYear epochForSpeed).f
        = (List.range (lastYear - firstYear + 1)).map (fun idx =>
            (List.zipWith (fun (c : ℚ) t => t.f.getD idx 1 ^ ((|c| : ℚ) : ℝ)) cs
              (compoundTerms firstYear lastYear epochForSpeed)).prod))
    ∧ ((mkCompound nm [1, 1, 0, 0, 0, 0, 0, 0, 0, 0, 0, 0, 0]
          firstYear lastYear epochForSpeed).speed
        = (mkBasic (compoundBaseName 1) (compoundBaseV 1) (compoundBaseU 1)
            (compoundBaseTag 1) firstYear lastYear epochForSpeed).speed
          + (mkBasic (compoundBaseName 0) (compoundBaseV 0) (compoundBaseU 0)
              (compoundBaseTag 0) firstYear lastYear epochForSpeed).speed
      ∧ (mkCompound nm [1, 1, 0, 0, 0, 0, 0, 0, 0, 0, 0, 0, 0]
          firstYear lastYear epochForSpeed).Vpu
        = List.zipWith (· + ·)
            (mkBasic (compoundBaseName 1) (compoundBaseV 1) (compoundBaseU 1)
              (compoundBaseTag 1) firstYear lastYear epochForSpeed).Vpu
            (mkBasic (compoundBaseName 0) (compoundBaseV 0) (compoundBaseU 0)
              (compoundBaseTag 0) firstYear lastYear epochForSpeed).Vpu
      ∧ (mkCompound nm [1, 1, 0, 0, 0, 0, 0, 0, 0, 0, 0, 0, 0]
          firstYear lastYear epochForSpeed).f
        = List.zipWith (· * ·)
            (mkBasic (compoundBaseName 1) (compoundBaseV 1) (compoundBaseU 1)
              (compoundBaseTag 1) firstYear lastYear epochForSpeed).f
            (mkBasic (compoundBaseName 0) (compoundBaseV 0) (compoundBaseU 0)
              (compoundBaseTag 0) firstYear lastYear epochForSpeed).f) := by
  refine ⟨⟨mkCompound_speed _ _ _ _ _, ?_, ?_⟩, ?_, ?_, ?_⟩
  · apply List.ext_getElem
    · rw [mkCompound_Vpu_length, List.length_map, List.length_range]
    · intro i h1 h2
      rw [← List.getD_eq_getElem _ 0 h1, ← List.getD_eq_getElem _ 0 h2]
      have hi : i < lastYear - firstYear + 1 := by
        rw [mkCompound_Vpu_length] at h1; exact h1
      rw [mkCompound_Vpu_getD _ _ _ _ _ _ hi,
        List.getD_eq_getElem _ 0 h2, List.getElem_map, List.getElem_range]
  · apply List.ext_getElem
    · rw [mkCompound_f_length, List.length_map, List.length_range]
    · intro i h1 h2
      rw [← List.getD_eq_getElem _ 1 h1, ← List.getD_eq_getElem _ 1 h2]
      have hi : i < lastYear - firstYear + 1 := by
        rw [mkCompound_f_length] at h1; exact h1
      rw [mkCompound_f_getD _ _ _ _ _ _ hi,
        List.getD_eq_getElem _ 1 h2, List.getElem_map, List.getElem_range]
  · rw [mkCompound_speed]
    simp only [compoundTerms, range_thirteen, List.map_cons, List.map_nil,
      List.zipWith_cons_cons, List.zipWith_nil_left, List.sum_cons, List.sum_nil,
      zero_mul, one_mul, add_zero]
    ring
  · apply List.ext_getElem
    · rw [mkCompound_Vpu_length, List.length_zipWith, mkBasic_Vpu_length,
        mkBasic_Vpu_length, min_self]
    · intro i h1 h2
      have hi : i < lastYear - firstYear + 1 := by
        rw [mkCompound_Vpu_length] at h1; exact h1
      rw [← List.getD_eq_getElem _ 0 h1, mkCompound_Vpu_getD _ _ _ _ _ _ hi,
        List.getElem_zipWith,
        ← List.getD_eq_getElem _ 0 (by rw [mkBasic_Vpu_length]; exact hi),
        ← List.getD_eq_getElem _ 0 (by rw [mkBasic_Vpu_length]; exact hi)]
      simp only [compoundTerms, range_thirteen, List.map_cons, List.map_nil,
        List.zipWith_cons_cons, List.zipWith_nil_left, List.sum_cons, List.sum_nil,
        Rat.cast_zero, Rat.cast_one, zero_mul, one_mul, add_zero]
      ring
  · apply List.ext_getElem
    · rw [mkCompound_f_length, List.length_zipWith, mkBasic_f_length,
        mkBasic_f_length, min_self]
    · intro i h1 h2
      have hi : i < lastYear - firstYear + 1 := by
        rw [mkCompound_f_length] at h1; exact h1
      rw [← List.getD_eq_getElem _ 1 h1, mkCompound_f_getD _ _ _ _ _ _ hi,
        List.getElem_zipWith,
        ← List.getD_eq_getElem _ 1 (by rw [mkBasic_f_length]; exact hi),
        ← List.getD_eq_getElem _ 1 (by rw [mkBasic_f_length]; exact hi)]
      simp only [compoundTerms, range_thirteen, List.map_cons, List.map_nil,
        List.zipWith_cons_cons, List.zipWith_nil_left, List.prod_cons, List.prod_nil,
        abs_zero, abs_one, Rat.cast_zero, Rat.cast_one, Real.rpow_zero, Real.rpow_one,
        mul_one]
      ring

theorem V_terms_p_1900_ne_zero : (V_terms (-2208988800) 1).getD p_index 0 ≠ 0 := by
  norm_num [V_terms, Table_1_T, vadd, vscale, secondsPerJulianCentury_double,
    daysPerJulianCentury_double, p_index, List.zipWith, List.getD_cons_succ,
    List.getD_cons_zero]

/-- Claim C1 counterexample: with the header's u-term order
(ξ, ν, ν′, 2ν″, R, Q, Qᵤ), the tabulated L₂ base has Q-coefficient −1, so
its published speed differs from the plain dot-product formula (the
"M₁ special case" term is live for L₂), while the tabulated M₁-DUTCH base
has Q-coefficient 0 and its speed is exactly the plain formula — the
claim names the wrong exceptional base. -/
theorem claim_C1_cex :
    (mkBasic (compoundBaseName 6) (compoundBaseV 6) (compoundBaseU 6) (compoundBaseTag 6)
        1970 1970 1900).speed
      ≠ vdot (V_terms (startYear 1900) 1) (compoundBaseV 6) / hoursPerJulianCentury_double
    ∧ (mkBasic (compoundBaseName 11) (compoundBaseV 11) (compoundBaseU 11) (compoundBaseTag 11)
        1970 1970 1900).speed
      = vdot (V_terms (startYear 1900) 1) (compoundBaseV 11) / hoursPerJulianCentury_double := by
  have hsy : startYear 1900 = -2208988800 := by decide
  constructor
  · show (vdot (V_terms (startYear 1900) 1) (compoundBaseV 6)
        + (V_terms (startYear 1900) 1).getD p_index 0 * (compoundBaseU 6).getD Q_index 0)
        / hoursPerJulianCentury_double
      ≠ vdot (V_terms (startYear 1900) 1) (compoundBaseV 6) / hoursPerJulianCentury_double
    rw [show ((compoundBaseU 6).getD Q_index 0 : ℚ) = -1 from rfl, hsy]
    intro h
    rw [div_eq_div_iff (by norm_num [hoursPerJulianCentury_double])
      (by norm_num [hoursPerJulianCentury_double])] at h
    rw [show hoursPerJulianCentury_double = 876600 from rfl] at h
    exact V_terms_p_1900_ne_zero (by linarith)
  · show (vdot (V_terms (startYear 1900) 1) (compoundBaseV 11)
        + (V_terms (startYear 1900) 1).getD p_index 0 * (compoundBaseU 11).getD Q_index 0)
        / hoursPerJulianCentury_double
      = vdot (V_terms (startYear 1900) 1) (compoundBaseV 11) / hoursPerJulianCentury_double
    rw [show ((compoundBaseU 11).getD Q_index 0 : ℚ) = 0 from rfl, mul_zero, add_zero]

/-- C1 (amended): the published Basic speed is
((V_terms(startYear e, 1) · V) + V_terms(startYear e, 1)[p] · u[Q]) / 876600;
with the header's u-order (ξ, ν, ν′, 2ν″, R, Q, Qᵤ) the second (M₁ special
case) term is zero for every tabulated base row whose Q-coefficient is
zero — all Compound base rows except L₂ (including M₁-DUTCH, whose M₁
adjustment sits in the Qᵤ slot of u, not in the speed) — while the L₂ row
has Q-coefficient −1. -/
theorem claim_C1 (nm : String) (V u : List ℚ) (tag fy ly e : ℕ) (k : ℕ) (hk : k ≠ 6) :
    (mkBasic nm V u tag fy ly e).speed
      = (vdot (V_terms (startYear e) 1) V
         + (V_terms (startYear e) 1).getD p_index 0 * u.getD Q_index 0)
        / hoursPerJulianCentury_double
    ∧ (compoundBaseU k).getD Q_index 0 = 0
    ∧ (compoundBaseU 6).getD Q_index 0 = -1
    ∧ (mkBasic (compoundBaseName k) (compoundBaseV k) (compoundBaseU k) (compoundBaseTag k)
        fy ly e).speed
      = vdot (V_terms (startYear e) 1) (compoundBaseV k) / hoursPerJulianCentury_double := by
  have hu : (compoundBaseU k).getD Q_index 0 = 0 := by
    match k, hk with
    | 0, _ => rfl
    | 1, _ => rfl
    | 2, _ => rfl
    | 3, _ => rfl
    | 4, _ => rfl
    | 5, _ => rfl
    | 6, h => exact absurd rfl h
    | 7, _ => rfl
    | 8, _ => rfl
    | 9, _ => rfl
    | 10, _ => rfl
    | 11, _ => rfl
    | n + 12, _ => rfl
  refine ⟨rfl, hu, rfl, ?_⟩
  show (vdot (V_terms (startYear e) 1) (compoundBaseV k)
      + (V_terms (startYear e) 1).getD p_index 0 * (compoundBaseU k).getD Q_index 0)
      / hoursPerJulianCentury_double = _
  rw [hu, mul_zero, add_zero]

theorem claim_C1_witness :
    ((0 : ℕ) ≠ 6)
    ∧ ((mkBasic "x" [] [] 1 1 1 1).speed
        = (vdot (V_terms (startYear 1) 1) []
           + (V_terms (startYear 1) 1).getD p_index 0 * ([] : List ℚ).getD Q_index 0)
          / hoursPerJulianCentury_double
      ∧ (compoundBaseU 0).getD Q_index 0 = 0
      ∧ (compoundBaseU 6).getD Q_index 0 = -1
      ∧ (mkBasic (compoundBaseName 0) (compoundBaseV 0) (compoundBaseU 0) (compoundBaseTag 0)
          1 1 1).speed
        = vdot (V_terms (startYear 1) 1) (compoundBaseV 0) / hoursPerJulianCentury_double) :=
  ⟨by decide, claim_C1 "x" [] [] 1 1 1 1 0 (by decide)⟩

theorem ISS_run_failMid {α : Type} (dflt : α) (scan : List Char → ScanRes α) (cs : List Char)
    (h : scan cs = .failMid) :
    ISS.run dflt scan ⟨cs, false, false⟩ = (dflt, ⟨cs, false, true⟩) := by
  simp [ISS.run, h]

theorem ISS_run_eof {α : Type} (dflt : α) (scan : List Char → ScanRes α) (cs : List Char)
    (b : Bool) :
    ISS.run dflt scan ⟨cs, true, b⟩ = (dflt, ⟨cs, true, true⟩) := by
  simp [ISS.run]

/-- The five-field satellite block read agrees with its flag-free
restatement whenever the stream is in the canonical post-read state
(`eofbit` exactly on an empty rest, `failbit` clear). -/
theorem readSatTail_clean (r : List Char) :
    readSatTail ⟨r, r.isEmpty, false⟩
      = (cleanSatBlock r).map (fun q => (q.1, (⟨q.2, q.2.isEmpty, false⟩ : ISS))) := by
  by_cases hr : r = []
  · subst hr; rfl
  · have hre : r.isEmpty = false := by simpa using hr
    rw [hre, readSatTail, cleanSatBlock]
    cases h2 : scanInt r with
    | failEnd => rw [ISS.readInt, ISS_run_failEnd _ _ _ h2]; rfl
    | failMid => rw [ISS.readInt, ISS_run_failMid _ _ _ h2]; rfl
    | ok dN r2 =>
      rw [ISS.readInt, ISS_run_ok _ _ _ _ _ h2]
      by_cases hr2 : r2 = []
      · subst hr2; rfl
      · have hr2e : r2.isEmpty = false := by simpa using hr2
        rw [hr2e]
        show (if !(ISS.good ⟨r2, false, false⟩) then _ else _) = _
        rw [show ISS.good ⟨r2, false, false⟩ = true from rfl]
        simp only [Bool.not_true, Bool.false_eq_true, if_false]
        cases h3 : scanInt r2 with
        | failEnd => rw [ISS.readInt, ISS_run_failEnd _ _ _ h3]; rfl
        | failMid => rw [ISS.readInt, ISS_run_failMid _ _ _ h3]; rfl
        | ok dp1 r3 =>
          rw [ISS.readInt, ISS_run_ok _ _ _ _ _ h3]
          by_cases hr3 : r3 = []
          · subst hr3; rfl
          · have hr3e : r3.isEmpty = false := by simpa using hr3
            rw [hr3e]
            show (if !(ISS.good ⟨r3, false, false⟩) then _ else _) = _
            rw [show ISS.good ⟨r3, false, false⟩ = true from rfl]
            simp only [Bool.not_true, Bool.false_eq_true, if_false]
            cases h4 : scanDouble r3 with
            | failEnd => rw [ISS.readDouble, ISS_run_failEnd _ _ _ h4]; rfl
            | failMid => rw [ISS.readDouble, ISS_run_failMid _ _ _ h4]; rfl
            | ok a r4 =>
              rw [ISS.readDouble, ISS_run_ok _ _ _ _ _ h4]
              by_cases hr4 : r4 = []
              · subst hr4; rfl
              · have hr4e : r4.isEmpty = false := by simpa using hr4
                rw [hr4e]
                show (if !(ISS.good ⟨r4, false, false⟩) then _ else _) = _
                rw [show ISS.good ⟨r4, false, false⟩ = true from rfl]
                simp only [Bool.not_true, Bool.false_eq_true, if_false]
                cases h5 : scanTok r4 with
                | failEnd => rw [ISS.readStr, ISS_run_failEnd _ _ _ h5]; rfl
                | failMid => rw [ISS.readStr, ISS_run_failMid _ _ _ h5]; rfl
                | ok t r5 =>
                  rw [ISS.readStr, ISS_run_ok _ _ _ _ _ h5]
                  cases h6 : ratTok t <;> simp [h6]


/-- The in-line satellite loop agrees with its flag-free restatement on
everything the main loop keeps, whenever the stream is in the canonical
state (`eofbit` only on an empty rest, `failbit` clear). -/
theorem satLoopIter_blocks (need : ℕ) :
    ∀ (cs : List Char) (e : Bool) (acc : List Satellite), (e = true → cs = []) →
    SatIterRes.strip (satLoopIter ⟨cs, e, false⟩ need acc)
      = LineRes.strip (satBlocksLine cs need acc) := by
  induction need with
  | zero => intro cs e acc _; rfl
  | succ n ih =>
    intro cs e acc he
    cases e with
    | true => rw [he rfl]; rfl
    | false =>
      rw [satLoopIter, satBlocksLine]
      simp only [show (⟨cs, false, false⟩ : ISS).eofb = false from rfl, Bool.false_eq_true,
        if_false]
      cases h1 : scanInt cs with
      | failEnd =>
        rw [show (⟨cs, false, false⟩ : ISS).readInt = (0, ⟨[], true, true⟩) from
          ISS_run_failEnd _ _ _ h1]
        rfl
      | failMid =>
        rw [show (⟨cs, false, false⟩ : ISS).readInt = (0, ⟨cs, false, true⟩) from
          ISS_run_failMid _ _ _ h1]
        rfl
      | ok dp cs1 =>
        rw [show (⟨cs, false, false⟩ : ISS).readInt = (dp, ⟨cs1, cs1.isEmpty, false⟩) from
          ISS_run_ok _ _ _ _ _ h1]
        simp only [Bool.false_eq_true, if_false, readSatTail_clean]
        cases h7 : cleanSatBlock cs1 with
        | none => rfl
        | some q =>
          simp only [Option.map_some]
          exact ih q.2 q.2.isEmpty (storeSat acc dp q.1) (fun h => by simpa using h)

/-- The checked double loop agrees with the flag-free one, except that
its final `!iss.good ()` check also rejects a batch whose last double
consumed the entire line. -/
theorem readDoublesChecked_clean (n : ℕ) :
    ∀ (r : List Char), r ≠ [] →
    readDoublesChecked ⟨r, false, false⟩ n
      = (cleanDoubles r n).bind (fun q =>
          if q.2.isEmpty then none else some (q.1, (⟨q.2, false, false⟩ : ISS))) := by
  induction n with
  | zero =>
    intro r hr
    rw [readDoublesChecked, cleanDoubles]
    simp [show r.isEmpty = false by simpa using hr, hr]
  | succ n ih =>
    intro r hr
    rw [readDoublesChecked, cleanDoubles]
    cases h : scanDouble r with
    | failEnd =>
      rw [show (⟨r, false, false⟩ : ISS).readDouble = (⟨0, 0⟩, ⟨[], true, true⟩) from
        ISS_run_failEnd _ _ _ h]
      rfl
    | failMid =>
      rw [show (⟨r, false, false⟩ : ISS).readDouble = (⟨0, 0⟩, ⟨r, false, true⟩) from
        ISS_run_failMid _ _ _ h]
      rfl
    | ok v rest =>
      rw [show (⟨r, false, false⟩ : ISS).readDouble = (v, ⟨rest, rest.isEmpty, false⟩) from
        ISS_run_ok _ _ _ _ _ h]
      show _ = (Option.map (fun q => (v :: q.1, q.2)) (cleanDoubles rest n)).bind
        (fun q => if q.2.isEmpty = true then none
          else some (q.1, (⟨q.2, false, false⟩ : ISS)))
      by_cases hrest : rest = []
      · subst hrest
        cases n <;> rfl
      · have hre : rest.isEmpty = false := by simpa using hrest
        rw [hre]
        show (if ISS.good ⟨rest, false, false⟩ = true then _ else _) = _
        rw [show ISS.good ⟨rest, false, false⟩ = true from rfl, if_pos rfl,
          ih rest hrest]
        cases hX : cleanDoubles rest n with
        | none => rfl
        | some q =>
          simp only [Option.map_some]
          by_cases hq : q.2 = [] <;> simp [hq]

theorem cleanDoubles_add (m n : ℕ) : ∀ (cs : List Char),
    cleanDoubles cs (m + n)
      = (cleanDoubles cs m).bind (fun q =>
          (cleanDoubles q.2 n).map (fun q2 => (q.1 ++ q2.1, q2.2))) := by
  induction m with
  | zero =>
    intro cs
    rw [show 0 + n = n from by omega]
    rw [show cleanDoubles cs 0 = some ([], cs) from rfl]
    cases h : cleanDoubles cs n <;> simp [h]
  | succ m ih =>
    intro cs
    rw [show m + 1 + n = (m + n) + 1 from by omega]
    rw [cleanDoubles, cleanDoubles]
    cases h : scanDouble cs with
    | failEnd => rfl
    | failMid => rfl
    | ok v rest =>
      show Option.map (fun q => (v :: q.1, q.2)) (cleanDoubles rest (m + n))
        = (Option.map (fun q => (v :: q.1, q.2)) (cleanDoubles rest m)).bind
            (fun q => (cleanDoubles q.2 n).map (fun q2 => (q.1 ++ q2.1, q2.2)))
      rw [ih rest]
      cases h1 : cleanDoubles rest m with
      | none => rfl
      | some q =>
        simp only [Option.map_some, Option.some_bind]
        cases h2 : cleanDoubles q.2 n <;> simp [h2]

/-- The Basic record tail parses exactly when twelve doubles and an
unsigned tag parse cleanly (the intermediate `!iss.good ()` rejections
coincide with a later clean read failing on an exhausted line). -/
theorem readBasicTail_clean (r : List Char) (hr : r ≠ []) :
    (readBasicTail ⟨r, false, false⟩).isSome
      = ((cleanDoubles r 12).bind (fun q => cleanUInt q.2)).isSome := by
  rw [readBasicTail, readDoublesChecked_clean 6 r hr,
    show (12 : ℕ) = 6 + 6 from rfl, cleanDoubles_add]
  cases h1 : cleanDoubles r 6 with
  | none => rfl
  | some q =>
    simp only [Option.some_bind]
    by_cases hq : q.2 = []
    · rw [hq]; rfl
    · rw [show q.2.isEmpty = false from by simpa using hq, if_neg (by simp),
        Option.some_bind, readDoublesChecked_clean 6 q.2 hq]
      cases h2 : cleanDoubles q.2 6 with
      | none => rfl
      | some q2 =>
        simp only [Option.some_bind, Option.map_some]
        by_cases hq2 : q2.2 = []
        · simp [hq2, cleanUInt, show scanUInt ([] : List Char) = ScanRes.failEnd from rfl]
        · rw [show q2.2.isEmpty = false from by simpa using hq2, if_neg (by simp),
            Option.some_bind]
          cases h3 : scanUInt q2.2 with
          | failEnd =>
            rw [show (⟨q2.2, false, false⟩ : ISS).readUInt = (0, ⟨[], true, true⟩) from
              ISS_run_failEnd _ _ _ h3]
            simp [cleanUInt, h3]
          | failMid =>
            rw [show (⟨q2.2, false, false⟩ : ISS).readUInt = (0, ⟨q2.2, false, true⟩) from
              ISS_run_failMid _ _ _ h3]
            simp [cleanUInt, h3]
          | ok v rest =>
            rw [show (⟨q2.2, false, false⟩ : ISS).readUInt = (v, ⟨rest, rest.isEmpty, false⟩) from
              ISS_run_ok _ _ _ _ _ h3]
            simp [cleanUInt, h3]

/-- The Doodson record head agrees with the clean reads: six doubles
then the satellite count, the stream ending in canonical state. -/
theorem readDoodsonHead_clean (r : List Char) (hr : r ≠ []) :
    readDoodsonHead ⟨r, false, false⟩
      = (cleanDoubles r 6).bind (fun q =>
          (cleanUInt q.2).map (fun p => (q.1, p.1, (⟨p.2, p.2.isEmpty, false⟩ : ISS)))) := by
  rw [readDoodsonHead, readDoublesChecked_clean 6 r hr]
  cases h1 : cleanDoubles r 6 with
  | none => rfl
  | some q =>
    simp only [Option.some_bind]
    by_cases hq : q.2 = []
    · rw [hq]; rfl
    · rw [show q.2.isEmpty = false from by simpa using hq, if_neg (by simp),
        Option.some_bind]
      cases h3 : scanUInt q.2 with
      | failEnd =>
        rw [show (⟨q.2, false, false⟩ : ISS).readUInt = (0, ⟨[], true, true⟩) from
          ISS_run_failEnd _ _ _ h3]
        simp [cleanUInt, h3]
      | failMid =>
        rw [show (⟨q.2, false, false⟩ : ISS).readUInt = (0, ⟨q.2, false, true⟩) from
          ISS_run_failMid _ _ _ h3]
        simp [cleanUInt, h3]
      | ok v rest =>
        rw [show (⟨q.2, false, false⟩ : ISS).readUInt = (v, ⟨rest, rest.isEmpty, false⟩) from
          ISS_run_ok _ _ _ _ _ h3]
        simp [cleanUInt, h3]

theorem strip_eq_done (x : SatIterRes) (sats : List Satellite)
    (h : x.strip = .done sats []) : ∃ s, x = .done sats s := by
  cases x with
  | done a b =>
    refine ⟨b, ?_⟩
    simp only [SatIterRes.strip, LineRes.done.injEq] at h
    rw [h.1]
  | more n a => exact absurd h (by simp [SatIterRes.strip])
  | err => exact absurd h (by simp [SatIterRes.strip])

theorem strip_eq_more (x : SatIterRes) (n : ℕ) (a : List Satellite)
    (h : x.strip = .more n a) : x = .more n a := by
  cases x with
  | done s b => exact absurd h (by simp [SatIterRes.strip])
  | more n2 a2 =>
    simp only [SatIterRes.strip, LineRes.more.injEq] at h
    rw [h.1, h.2]
  | err => exact absurd h (by simp [SatIterRes.strip])

theorem strip_eq_bad (x : SatIterRes) (h : x.strip = .bad) : x = .err := by
  cases x with
  | done s b => exact absurd h (by simp [SatIterRes.strip])
  | more n2 a2 => exact absurd h (by simp [SatIterRes.strip])
  | err => rfl

/-- The return value of the main loop is 0 or a line number between the
first unread line and one past the last input line. -/
theorem parseGo_bound (lines : List String) : ∀ (nextNo : ℕ) (acc : List Record) (k : Cont),
    (parseGo lines nextNo acc k).1 = 0
      ∨ (nextNo ≤ (parseGo lines nextNo acc k).1
         ∧ (parseGo lines nextNo acc k).1 ≤ nextNo + lines.length) := by
  induction lines with
  | nil =>
    intro nextNo acc k
    cases k with
    | top => exact Or.inl rfl
    | dood nm V need sats => exact Or.inr ⟨le_rfl, by simp [parseGo]⟩
  | cons line ls ih =>
    intro nextNo acc k
    have hstep : ∀ (acc2 : List Record) (k2 : Cont),
        (parseGo ls (nextNo + 1) acc2 k2).1 = 0
          ∨ (nextNo ≤ (parseGo ls (nextNo + 1) acc2 k2).1
             ∧ (parseGo ls (nextNo + 1) acc2 k2).1 ≤ nextNo + (line :: ls).length) := by
      intro acc2 k2
      rcases ih (nextNo + 1) acc2 k2 with h | ⟨h1, h2⟩
      · exact Or.inl h
      · exact Or.inr ⟨by omega, by simp only [List.length_cons]; omega⟩
    cases k with
    | dood nm V need sats =>
      rw [parseGo]
      cases satLoopIter (ISS.ofLine line) need sats with
      | err => exact Or.inr ⟨le_rfl, Nat.le_add_right _ _⟩
      | done s2 s => exact hstep _ _
      | more n2 a2 => exact hstep _ _
    | top =>
      rw [parseGo]
      dsimp only
      split
      · exact hstep _ _
      split
      · exact hstep _ _
      split
      · exact Or.inr ⟨le_rfl, Nat.le_add_right _ _⟩
      split
      · split
        · exact Or.inr ⟨le_rfl, Nat.le_add_right _ _⟩
        · exact hstep _ _
      split
      · split
        · exact Or.inr ⟨le_rfl, Nat.le_add_right _ _⟩
        · split
          · exact Or.inr ⟨le_rfl, Nat.le_add_right _ _⟩
          · exact hstep _ _
          · exact hstep _ _
      split
      · exact hstep _ _
      · exact Or.inr ⟨le_rfl, Nat.le_add_right _ _⟩

theorem readStr_ok (cs t r : List Char) (h : scanTok cs = .ok t r) :
    (⟨cs, false, false⟩ : ISS).readStr = (t, ⟨r, r.isEmpty, false⟩) :=
  ISS_run_ok _ _ _ _ _ h

theorem readStr_failEnd (cs : List Char) (h : scanTok cs = .failEnd) :
    (⟨cs, false, false⟩ : ISS).readStr = ([], ⟨[], true, true⟩) :=
  ISS_run_failEnd _ _ _ h

theorem readStr_failMid (cs : List Char) (h : scanTok cs = .failMid) :
    (⟨cs, false, false⟩ : ISS).readStr = ([], ⟨cs, false, true⟩) :=
  ISS_run_failMid _ _ _ h

/-- Success of the main loop coincides with well-formedness of the
catalog text, from any record boundary (`Cont.top`) or satellite
continuation (`Cont.dood`), for any positive next line number. -/
theorem parseGo_wf (N : ℕ) : ∀ (lines : List String), lines.length ≤ N →
    (∀ (nextNo : ℕ) (acc : List Record), 1 ≤ nextNo →
      ((parseGo lines nextNo acc .top).1 = 0 ↔ wfLines lines = true))
    ∧ (∀ (nextNo : ℕ) (acc : List Record) (nm : List Char) (V : List Dec)
        (need : ℕ) (sats : List Satellite), 1 ≤ nextNo →
      ((parseGo lines nextNo acc (.dood nm V need sats)).1 = 0
        ↔ doodRest lines need sats = true)) := by
  induction N with
  | zero =>
    intro lines hlen
    have hnil : lines = [] := List.eq_nil_of_length_eq_zero (by omega)
    subst hnil
    constructor
    · intro nextNo acc _
      exact iff_of_true rfl (by rw [wfLines])
    · intro nextNo acc nm V need sats h1
      exact iff_of_false (by omega : ¬(nextNo = 0)) (by simp [doodRest])
  | succ N ihN =>
    intro lines hlen
    cases lines with
    | nil =>
      constructor
      · intro nextNo acc _
        exact iff_of_true rfl (by rw [wfLines])
      · intro nextNo acc nm V need sats h1
        exact iff_of_false (by omega : ¬(nextNo = 0)) (by simp [doodRest])
    | cons line ls =>
      have hls : ls.length ≤ N := by simp only [List.length_cons] at hlen; omega
      obtain ⟨ihT, ihD⟩ := ihN ls hls
      constructor
      · intro nextNo acc h1
        rw [parseGo, wfLines]
        dsimp only
        by_cases hemp : line.toList.isEmpty = true
        · rw [if_pos hemp, if_pos hemp]
          exact ihT (nextNo + 1) acc (by omega)
        · rw [if_neg hemp, if_neg hemp]
          by_cases hh : line.toList.head? = some '#'
          · rw [if_pos hh, if_pos hh]
            exact ihT (nextNo + 1) acc (by omega)
          · rw [if_neg hh, if_neg hh, ISS.ofLine]
            cases ht1 : scanTok line.toList with
            | failEnd =>
              rw [readStr_failEnd _ ht1]
              exact iff_of_false (by omega : ¬(nextNo = 0))
                (by have ht1' : scanTok line.data = ScanRes.failEnd := ht1
                    simp [cleanTok, ht1'])
            | failMid =>
              rw [readStr_failMid _ ht1]
              exact iff_of_false (by omega : ¬(nextNo = 0))
                (by have ht1' : scanTok line.data = ScanRes.failMid := ht1
                    simp [cleanTok, ht1'])
            | ok t r1 =>
              rw [readStr_ok _ _ _ ht1]
              by_cases hr1 : r1 = []
              · subst hr1
                exact iff_of_false (by omega : ¬(nextNo = 0))
                  (by have ht1' : scanTok line.data = ScanRes.ok t [] := ht1
                      simp [cleanTok, ht1', scanTok_nil])
              · have hr1e : r1.isEmpty = false := by simpa using hr1
                rw [hr1e]
                cases ht2 : scanTok r1 with
                | failEnd =>
                  rw [readStr_failEnd _ ht2]
                  exact iff_of_false (by omega : ¬(nextNo = 0))
                    (by have ht1' : scanTok line.data = ScanRes.ok t r1 := ht1
                        simp [cleanTok, ht1', ht2])
                | failMid =>
                  rw [readStr_failMid _ ht2]
                  exact iff_of_false (by omega : ¬(nextNo = 0))
                    (by have ht1' : scanTok line.data = ScanRes.ok t r1 := ht1
                        simp [cleanTok, ht1', ht2])
                | ok kind r2 =>
                  rw [readStr_ok _ _ _ ht2]
                  by_cases hr2 : r2 = []
                  · subst hr2
                    exact iff_of_false (by omega : ¬(nextNo = 0))
                      (by have ht1' : scanTok line.data = ScanRes.ok t r1 := ht1
                          simp [cleanTok, ht1', ht2])
                  · have hr2e : r2.isEmpty = false := by simpa using hr2
                    rw [hr2e]
                    have ht1' : scanTok line.data = ScanRes.ok t r1 := ht1
                    simp only [cleanTok, ht1, ht1', ht2]
                    rw [show (!ISS.good ⟨r2, false, false⟩) = false from rfl]
                    simp only [Bool.false_eq_true, if_false, hr2e]
                    by_cases hb : kind = "Basic".toList
                    · rw [if_pos hb, if_pos hb]
                      cases hbt : readBasicTail ⟨r2, false, false⟩ with
                      | none =>
                        have hrs : ((cleanDoubles r2 12).bind (fun q => cleanUInt q.2)).isSome
                            = false := by
                          rw [← readBasicTail_clean r2 hr2, hbt]; rfl
                        refine iff_of_false (by omega : ¬(nextNo = 0)) ?_
                        cases hcd : cleanDoubles r2 12 with
                        | none => simp [hcd]
                        | some q =>
                          rw [hcd] at hrs
                          simp only [Option.some_bind] at hrs
                          cases hcu : cleanUInt q.2 with
                          | none => simp [hcd, hcu]
                          | some p => rw [hcu] at hrs; simp at hrs
                      | some tr =>
                        obtain ⟨V2, u2, tag2⟩ := tr
                        have hrs : ((cleanDoubles r2 12).bind (fun q => cleanUInt q.2)).isSome
                            = true := by
                          rw [← readBasicTail_clean r2 hr2, hbt]; rfl
                        show (parseGo ls (nextNo + 1) (acc ++ [Record.basic t V2 u2 tag2])
                          Cont.top).1 = 0 ↔ _
                        rw [ihT (nextNo + 1) (acc ++ [Record.basic t V2 u2 tag2]) (by omega)]
                        cases hcd : cleanDoubles r2 12 with
                        | none => rw [hcd] at hrs; simp at hrs
                        | some q =>
                          rw [hcd] at hrs
                          simp only [Option.some_bind] at hrs
                          cases hcu : cleanUInt q.2 with
                          | none => rw [hcu] at hrs; simp at hrs
                          | some p => simp [hcd, hcu]
                    · rw [if_neg hb, if_neg hb]
                      by_cases hd : kind = "Doodson".toList
                      · rw [if_pos hd, if_pos hd]
                        rw [readDoodsonHead_clean r2 hr2]
                        cases hcd : cleanDoubles r2 6 with
                        | none =>
                          exact iff_of_false (by omega : ¬(nextNo = 0)) (by simp [hcd])
                        | some q =>
                          simp only [Option.some_bind]
                          cases hcu : cleanUInt q.2 with
                          | none =>
                            exact iff_of_false (by omega : ¬(nextNo = 0))
                              (by simp [hcd, hcu])
                          | some p =>
                            rw [Option.map_some']
                            have hcorr := satLoopIter_blocks p.1 p.2 p.2.isEmpty []
                              (fun h => by simpa using h)
                            cases hbl : satBlocksLine p.2 p.1 [] with
                            | done sats2 rest =>
                              obtain ⟨s', hs'⟩ := strip_eq_done _ _ (by rw [hcorr, hbl]; rfl)
                              dsimp only
                              rw [hs']
                              show (parseGo ls (nextNo + 1)
                                (acc ++ [Record.doodson t q.1 sats2]) Cont.top).1 = 0 ↔ _
                              rw [ihT (nextNo + 1) (acc ++ [Record.doodson t q.1 sats2])
                                (by omega)]
                              have hsb2 : satBlocks p.2 ls p.1 [] = some (sats2, ls) := by
                                rw [satBlocks, hbl]
                              try dsimp only
                              constructor
                              · intro h
                                split
                                · rename_i hsb
                                  rw [hsb2] at hsb
                                  exact absurd hsb (by simp)
                                · rename_i fst ls' hsb
                                  rw [hsb2] at hsb
                                  simp only [Option.some.injEq, Prod.mk.injEq] at hsb
                                  rw [← hsb.2]
                                  exact h
                              · intro h
                                split at h
                                · exact absurd h (by simp)
                                · rename_i fst ls' hsb
                                  rw [hsb2] at hsb
                                  simp only [Option.some.injEq, Prod.mk.injEq] at hsb
                                  rw [hsb.2]
                                  exact h
                            | bad =>
                              have hE := strip_eq_bad _ (by rw [hcorr, hbl]; rfl)
                              dsimp only
                              rw [hE]
                              have hsb2 : satBlocks p.2 ls p.1 [] = none := by
                                rw [satBlocks, hbl]
                              refine iff_of_false (by omega : ¬(nextNo = 0)) ?_
                              intro h
                              try dsimp only at h
                              split at h
                              · exact absurd h (by simp)
                              · rename_i fst ls' hsb
                                rw [hsb2] at hsb
                                exact absurd hsb (by simp)
                            | more n2 a2 =>
                              have hM := strip_eq_more _ _ _ (by rw [hcorr, hbl]; rfl)
                              dsimp only
                              rw [hM]
                              show (parseGo ls (nextNo + 1) acc
                                (Cont.dood t q.1 n2 a2)).1 = 0 ↔ _
                              rw [ihD (nextNo + 1) acc t q.1 n2 a2 (by omega)]
                              try dsimp only
                              cases ls with
                              | nil =>
                                have hsb2 : satBlocks p.2 [] p.1 [] = none := by
                                  rw [satBlocks, hbl]
                                refine iff_of_false (by simp [doodRest]) ?_
                                intro h
                                split at h
                                · exact absurd h (by simp)
                                · rename_i fst ls' hsb
                                  rw [hsb2] at hsb
                                  exact absurd hsb (by simp)
                              | cons l2 ls2 =>
                                have hsb2 : satBlocks p.2 (l2 :: ls2) p.1 []
                                    = satBlocks l2.toList ls2 n2 a2 := by
                                  rw [satBlocks, hbl]
                                rw [doodRest]
                                constructor
                                · intro h
                                  split
                                  · rename_i hsb
                                    rw [hsb2] at hsb
                                    rw [hsb] at h
                                    simp at h
                                  · rename_i fst ls' hsb
                                    rw [hsb2] at hsb
                                    rw [hsb] at h
                                    simpa using h
                                · intro h
                                  split at h
                                  · exact absurd h (by simp)
                                  · rename_i fst ls' hsb
                                    rw [hsb2] at hsb
                                    rw [hsb]
                                    simpa using h
                      · rw [if_neg hd, if_neg hd]
                        by_cases hc : kind = "Compound".toList
                        · rw [if_pos hc, if_pos hc]
                          show (parseGo ls (nextNo + 1)
                            (acc ++ [Record.compound t (readCompound ⟨r2, false, false⟩)])
                            Cont.top).1 = 0 ↔ _
                          exact ihT (nextNo + 1) _ (by omega)
                        · rw [if_neg hc, if_neg hc]
                          exact iff_of_false (by omega : ¬(nextNo = 0)) (by simp)
      · intro nextNo acc nm V need sats h1
        rw [parseGo, doodRest, ISS.ofLine]
        have hcorr := satLoopIter_blocks need line.toList false sats
          (fun h => absurd h (by simp))
        cases hbl : satBlocksLine line.toList need sats with
        | done sats2 rest =>
          obtain ⟨s', hs'⟩ := strip_eq_done _ _ (by rw [hcorr, hbl]; rfl)
          rw [hs']
          show (parseGo ls (nextNo + 1) (acc ++ [Record.doodson nm V sats2])
            Cont.top).1 = 0 ↔ _
          rw [ihT (nextNo + 1) (acc ++ [Record.doodson nm V sats2]) (by omega)]
          have hsb2 : satBlocks line.toList ls need sats = some (sats2, ls) := by
            rw [satBlocks, hbl]
          rw [hsb2]
        | bad =>
          have hE := strip_eq_bad _ (by rw [hcorr, hbl]; rfl)
          rw [hE]
          have hsb2 : satBlocks line.toList ls need sats = none := by
            rw [satBlocks, hbl]
          exact iff_of_false (by omega : ¬(nextNo = 0)) (by rw [hsb2]; simp)
        | more n2 a2 =>
          have hM := strip_eq_more _ _ _ (by rw [hcorr, hbl]; rfl)
          rw [hM]
          show (parseGo ls (nextNo + 1) acc (Cont.dood nm V n2 a2)).1 = 0 ↔ _
          rw [ihD (nextNo + 1) acc nm V n2 a2 (by omega)]
          cases ls with
          | nil =>
            have hsb2 : satBlocks line.toList [] need sats = none := by
              rw [satBlocks, hbl]
            exact iff_of_false (by simp [doodRest]) (by rw [hsb2]; simp)
          | cons l2 ls2 =>
            have hsb2 : satBlocks line.toList (l2 :: ls2) need sats
                = satBlocks l2.toList ls2 n2 a2 := by
              rw [satBlocks, hbl]
            rw [doodRest, hsb2]

/-- Claim C4 counterexample: a Doodson record whose declared satellite
count exceeds the blocks present runs the satellite loop off the end of
the input; the parser then returns one more than the number of input
lines — a line number that indexes no line, so the returned value is
not "the 1-based line number of the first malformed line". -/
theorem claim_C4_cex :
    (parseLegacyInput true ["D Doodson 1 0 0 0 0 0 2 1 1 1 1 1"]).1 = 2
    ∧ ["D Doodson 1 0 0 0 0 0 2 1 1 1 1 1"].length = 1 :=
  ⟨by decide, rfl⟩

/-- C4 (amended): an unreadable input stream yields 1; the parser
returns 0 exactly when every record is well-formed (empty and `#` lines
ignored); otherwise it returns the 1-based number of the line on which
parsing failed, which is at most one past the last input line (one past
exactly when a Doodson satellite list is truncated by end of input). -/
theorem claim_C4 (lines : List String) :
    parseLegacyInput false lines = (1, [])
    ∧ ((parseLegacyInput true lines).1 = 0 ↔ wfLines lines = true)
    ∧ (parseLegacyInput true lines).1 ≤ lines.length + 1 := by
  refine ⟨rfl, ?_, ?_⟩
  · show (parseGo lines 1 [] .top).1 = 0 ↔ _
    exact (parseGo_wf lines.length lines le_rfl).1 1 [] le_rfl
  · show (parseGo lines 1 [] .top).1 ≤ lines.length + 1
    rcases parseGo_bound lines 1 [] .top with h | ⟨h1, h2⟩
    · omega
    · omega

end Congen
